import Mathlib

/-!
Verification development for the `doot` language front end (Rust sources under
`src/doot/src`): the lexer (matcher engine, mode stack, tokenization driver),
the literal-parsing helpers, and the Pratt expression parser.

Conventions of the embedding:

* Rust `&str` buffers are modelled as `List Char` (`Buf`).  Rust string
  operations that work on BYTE indices (`str::len`, slicing, `String::drain`)
  are modelled through `utf8Len` / `byteTake` / `byteDrop`, which account for
  the UTF-8 width of every character; slicing at a position that is not a
  character boundary is a Rust panic and is modelled as `none`.
* Rust panics are modelled explicitly: functions that can panic return
  `Option` or `Except PanicKind`.
* `char::is_whitespace` is modelled by the full Unicode White_Space set (the
  same 25 code points enumerated in the repository tests).
  `char::is_alphabetic` / `char::is_alphanumeric` are modelled on the ASCII
  fragment (`Char.isAlpha` / `Char.isAlphanum`); every concrete input used in
  a theorem below is ASCII, or a character (like U+00A1) on which the ASCII
  model and the Unicode predicate agree.
* Closures with mutable captures (matcher state machines) are defunctionalised
  into explicit state-passing data types; each constructor mirrors one
  closure of `matchers.rs` with its captured variables as fields.
-/

namespace Doot

/-- Rust `&str` modelled as a list of characters. -/
abbrev Buf := List Char

/-- The NUL sentinel character used by the driver. -/
def nulChar : Char := Char.ofNat 0

/-- The backquote character (raw string delimiter). -/
def backquote : Char := Char.ofNat 96

/-- Left brace character. -/
def lbrace : Char := Char.ofNat 123

/-- Right brace character. -/
def rbrace : Char := Char.ofNat 125

/-- Rust `str::len`: the UTF-8 byte length of a buffer. -/
def utf8Len (b : Buf) : Nat := (b.map Char.utf8Size).sum

/-- Byte-indexed prefix `s[..n]` of a Rust string.  Returns `none` when `n`
is not a character boundary (a Rust slicing panic). -/
def byteTake : Buf → Nat → Option Buf
  | _, 0 => some []
  | [], _ + 1 => none
  | c :: rest, n + 1 =>
    if c.utf8Size ≤ n + 1 then
      (byteTake rest (n + 1 - c.utf8Size)).map (c :: ·)
    else none

/-- Byte-indexed suffix `s[n..]` of a Rust string.  Returns `none` when `n`
is not a character boundary (a Rust slicing panic). -/
def byteDrop : Buf → Nat → Option Buf
  | b, 0 => some b
  | [], _ + 1 => none
  | c :: rest, n + 1 =>
    if c.utf8Size ≤ n + 1 then byteDrop rest (n + 1 - c.utf8Size)
    else none

/-- Total variant of `byteDrop` used where the source never slices out of
bounds; out-of-boundary positions fall back to the next character start. -/
def byteDropLoose : Buf → Nat → Buf
  | b, 0 => b
  | [], _ + 1 => []
  | c :: rest, n + 1 => byteDropLoose rest (n + 1 - c.utf8Size)

/-- Total byte-slice `s[lo..hi]` used for the chain close slices (the source
slices only at recorded character boundaries). -/
def byteSliceLoose (b : Buf) (lo hi : Nat) : Buf :=
  (byteDropLoose b lo).take ((byteDropLoose b lo).length - (byteDropLoose b hi).length)

/-- The Unicode White_Space code points: the model of `char::is_whitespace`
(the repository test suite enumerates exactly this set). -/
def rustWhitespaceCodes : List Nat :=
  [0x09, 0x0A, 0x0B, 0x0C, 0x0D, 0x20, 0x85, 0xA0, 0x1680,
   0x2000, 0x2001, 0x2002, 0x2003, 0x2004, 0x2005, 0x2006, 0x2007,
   0x2008, 0x2009, 0x200A, 0x2028, 0x2029, 0x202F, 0x205F, 0x3000]

/-- Model of Rust `char::is_whitespace`. -/
def isWhitespaceRust (c : Char) : Bool := rustWhitespaceCodes.contains c.toNat

/-- Model of Rust `char::is_alphabetic` (ASCII fragment, see header note). -/
def isAlphabeticRust (c : Char) : Bool := c.isAlpha

/-- Model of Rust `char::is_alphanumeric` (ASCII fragment, see header note). -/
def isAlphanumericRust (c : Char) : Bool := c.isAlphanum

/-- Model of Rust `char::is_ascii_digit`. -/
def isAsciiDigit (c : Char) : Bool := c.isDigit

/-! ## `lexer/parsing.rs`: literal parsing helpers -/

/-- `NumberParseError` of `parsing.rs`. -/
inductive NumberParseError where
  | InvalidInt
  | InvalidRadix (radix : String)
  | PositiveOverflow
  | NegativeOverflow
  | InvalidFloat
deriving DecidableEq, Repr

/-- `EscapeParseError` of `parsing.rs`. -/
inductive EscapeParseError where
  | NoValue (escape : String)
  | InvalidEscape (escape : String)
deriving DecidableEq, Repr

/-- `UnicodeParseError` of `parsing.rs`. -/
inductive UnicodeParseError where
  | InvalidHex (hex : String)
  | InvalidValue (unicode : String)
deriving DecidableEq, Repr

/-- `escape` of `parsing.rs`: the fixed table of ASCII escapes. -/
def escape (source : Buf) : Except EscapeParseError Char :=
  if source = ['\\', 'n'] then .ok '\n'
  else if source = ['\\', 'r'] then .ok '\r'
  else if source = ['\\', 't'] then .ok '\t'
  else if source = ['\\', '\\'] then .ok '\\'
  else if source = ['\\', '0'] then .ok nulChar
  else if source = ['\\', '$'] then .ok '$'
  else if source = ['\\', 'u'] then .error (.NoValue (String.mk source))
  else .error (.InvalidEscape (String.mk source))

/-- Rust `char::to_digit(16)`. -/
def hexDigitVal (c : Char) : Option Nat :=
  if '0' ≤ c ∧ c ≤ '9' then some (c.toNat - '0'.toNat)
  else if 'a' ≤ c ∧ c ≤ 'f' then some (c.toNat - 'a'.toNat + 10)
  else if 'A' ≤ c ∧ c ≤ 'F' then some (c.toNat - 'A'.toNat + 10)
  else none

/-- The digit-collecting loop of the unsigned base-16 parse: the values of a
run of hexadecimal digits, failing on the first non-digit. -/
def hexDigitList : Buf → Option (List Nat)
  | [] => some []
  | c :: rest =>
    match hexDigitVal c, hexDigitList rest with
    | some d, some ds => some (d :: ds)
    | _, _ => none

/-- Model of `u32::from_str_radix(s, 16)` collapsed to `Option`: an optional
leading `+` (unsigned parsing accepts no `-` sign), then one or more base-16
digits whose value fits in 32 bits (`hexDigitList` is the digit-collecting
iterator loop).  All Rust error kinds (`Empty`, `InvalidDigit`,
`PosOverflow`) collapse to `none` because `parse_unicode` maps every error to
`InvalidHex`. -/
def u32FromHex (s : Buf) : Option Nat :=
  match s with
  | [] => none
  | c :: rest =>
    let digits := if c = '+' then rest else s
    if digits.isEmpty then none
    else
      match hexDigitList digits with
      | none => none
      | some ds =>
        let v := ds.foldl (fun acc d => acc * 16 + d) 0
        if v < 2 ^ 32 then some v else none

/-- Rust `char::from_u32` validity: Unicode scalar values. -/
def isScalarValue (n : Nat) : Bool :=
  n < 0xD800 ∨ (0xE000 ≤ n ∧ n ≤ 0x10FFFF)

/-- `parse_unicode` of `parsing.rs`: base-16 code point via
`u32::from_str_radix`, then `char::from_u32`. -/
def parse_unicode (hexString : Buf) : Except UnicodeParseError Char :=
  match u32FromHex hexString with
  | none => .error (.InvalidHex (String.mk hexString))
  | some codePoint =>
    if isScalarValue codePoint then .ok (Char.ofNat codePoint)
    else .error (.InvalidValue (String.mk hexString))

/-- The `IntErrorKind` values `i64` parsing can produce. -/
inductive IntErrKind where
  | Empty
  | InvalidDigit
  | PosOverflow
  | NegOverflow
deriving DecidableEq, Repr

/-- Rust `char::to_digit(radix)` restricted to the radices 2, 8, 10, 16 used
by `parse_int`. -/
def digitVal (radix : Nat) (c : Char) : Option Nat :=
  match hexDigitVal c with
  | some d => if d < radix then some d else none
  | none => none

/-- Model of `i64::from_str_radix`: optional sign, then one or more digits in
the given radix; the value is range-checked against the 64-bit signed range.
Per-step checked arithmetic overflows exactly when the final value is out of
range, because the magnitude of the accumulator is monotone. -/
def fromStrRadix (radix : Nat) (s : Buf) : Except IntErrKind Int :=
  match s with
  | [] => .error .Empty
  | c :: rest =>
    let (positive, digits) :=
      if c = '+' then (true, rest)
      else if c = '-' then (false, rest)
      else (true, s)
    if digits.isEmpty then .error .InvalidDigit
    else
      match digits.mapM (digitVal radix) with
      | none => .error .InvalidDigit
      | some ds =>
        let mag : Int := ds.foldl (fun acc d => acc * (radix : Int) + (d : Int)) 0
        let v : Int := if positive then mag else -mag
        if v > 2 ^ 63 - 1 then .error .PosOverflow
        else if v < -(2 ^ 63) then .error .NegOverflow
        else .ok v

/-- `map_int_error` of `parsing.rs`: `Empty` (and the kinds unreachable for
`i64`) hit a `panic!()` arm, modelled as `none`. -/
def map_int_error (e : IntErrKind) : Option NumberParseError :=
  match e with
  | .Empty => none
  | .InvalidDigit => some .InvalidInt
  | .PosOverflow => some .PositiveOverflow
  | .NegOverflow => some .NegativeOverflow

/-- `clean_source` of `parsing.rs`: `source.replace("_", "")`. -/
def clean_source (source : Buf) : Buf := source.filter (· ≠ '_')

/-- Lift a `from_str_radix` result through `map_int_error`; `none` is the
modelled panic. -/
def liftIntResult (r : Except IntErrKind Int) : Option (Except NumberParseError Int) :=
  match r with
  | .ok v => some (.ok v)
  | .error e => (map_int_error e).map .error

/-- `parse_int` of `parsing.rs` (textually identical to `parse_int` of
`parser/literals.rs`): strips underscores, reads an optional sign, handles the
`0b` / `0o` / `0x` radix prefixes, `0<digit>` decimal, the standalone `0`,
and plain decimal.  `none` models a panic (never reached, see the C7
theorem). -/
def parse_int (source : Buf) : Option (Except NumberParseError Int) :=
  let cleaned := clean_source source
  match cleaned with
  | [] => some (.error .InvalidInt)
  | c0 :: rest0 =>
    let signed : Option (Char × Buf) :=
      if c0 = '+' ∨ c0 = '-' then some (c0, rest0)
      else if c0.isDigit then some ('+', cleaned)
      else none
    match signed with
    | none => some (.error .InvalidInt)
    | some (sign, src) =>
      match src with
      | [] => some (.error .InvalidInt)
      | d :: rest =>
        if d = '0' then
          match rest with
          | [] => some (.ok 0)
          | r :: _ =>
            if r = 'b' then liftIntResult (fromStrRadix 2 (sign :: src.drop 2))
            else if r = 'o' then liftIntResult (fromStrRadix 8 (sign :: src.drop 2))
            else if r = 'x' then liftIntResult (fromStrRadix 16 (sign :: src.drop 2))
            else if r.isDigit then liftIntResult (fromStrRadix 10 (sign :: src))
            else some (.error (.InvalidRadix (String.mk [r])))
        else if '1' ≤ d ∧ d ≤ '9' then liftIntResult (fromStrRadix 10 (sign :: src))
        else some (.error .InvalidInt)

/-- IEEE-754 parsing is out of scope for every claim below; the float token
simply carries the cleaned literal text.  The real `parse_float` may also
report `InvalidFloat` / overflow errors; no theorem below depends on a float
value or on a float error. -/
def parse_float (source : Buf) : Option (Except NumberParseError String) :=
  some (.ok (String.mk (clean_source source)))


/-! ## `lexer/matchers.rs`: the matcher engine

Closures with mutable captures are defunctionalised: `LeafOp` has one
constructor per primitive state-machine closure of `matchers.rs`, carrying the
captured mutable variables as explicit fields.  The generic chain combinator
(`MatcherStateManager::chain`) appears twice in the source: once over
primitive sub-machines (`conditions` / `text`, and directly in chain tests),
modelled by `StateOp.chainOp`, and once wrapping the sub-matchers of a
`ChainMatcher`, modelled at the `Matcher.chainM` level (the
`Rc<RefCell<...>>` sharing is collapsed into single ownership, as the design
notes of the specification prescribe). -/

/-- `MatcherState` of `matchers.rs`. -/
inductive MatcherState where
  | Open
  | Broken
  | Closeable
deriving DecidableEq, Repr

/-- `MatcherClass` of `matchers.rs`; the derived Rust `Ord` makes
`Fixed < Dynamic`. -/
inductive MatcherClass where
  | Fixed
  | Dynamic
deriving DecidableEq, Repr

/-- The boolean comparator corresponding to `MatcherClass::cmp`:
`Fixed < Dynamic` by declaration order. -/
def clsLe : MatcherClass → MatcherClass → Bool
  | .Fixed, _ => true
  | .Dynamic, .Fixed => false
  | .Dynamic, .Dynamic => true

/-- The primitive state-machine closures of `MatcherStateManager`, with their
mutable captures as fields: one matcher of a `conditions` chain (capture
`consumed`), `take_while` (capture `count`), `filtered_collector` (capture
`terminated`). -/
inductive LeafOp where
  | condOne (cond : Buf → Char → Bool) (consumed : Bool)
  | takeWhileOp (filter : Buf → Char → Bool) (min : Nat) (count : Nat)
  | filteredCollectorOp (terminators : List Buf) (filter : Buf → Char → Bool) (terminated : Bool)

/-- A primitive `MatcherStateManager`: current state value plus its op. -/
structure LeafMgr where
  value : MatcherState
  op : LeafOp

/-- `check_count` of `MatcherStateManager::take_while`. -/
def checkCount (min count : Nat) : MatcherState :=
  if count < min then .Open else .Closeable

/-- One step of a primitive op closure (only called with a non-`Broken` state
and a non-NUL character, as in the source). -/
def LeafOp.step : LeafOp → Buf → Char → MatcherState × LeafOp
  | .condOne cond consumed, buff, ch =>
    if !consumed && cond buff ch then (.Closeable, .condOne cond true)
    else (.Broken, .condOne cond consumed)
  | .takeWhileOp filter min count, buff, ch =>
    if filter buff ch then (checkCount min (count + 1), .takeWhileOp filter min (count + 1))
    else (.Broken, .takeWhileOp filter min count)
  | .filteredCollectorOp terminators filter terminated, buff, ch =>
    if !terminated && filter buff ch then
      let term := terminators.any (fun t => t.isSuffixOf buff)
      (if term then .Closeable else .Open, .filteredCollectorOp terminators filter term)
    else (.Broken, .filteredCollectorOp terminators filter terminated)

/-- `MatcherStateManager::accept` for a primitive manager: a `Broken` manager
panics in the source (the driver prunes broken candidates, so this is
unreachable and modelled as a no-op); NUL deterministically breaks. -/
def LeafMgr.accept (m : LeafMgr) (buff : Buf) (ch : Char) : LeafMgr :=
  match m.value with
  | .Broken => m
  | _ =>
    if ch = nulChar then { m with value := .Broken }
    else
      let s := m.op.step buff ch
      ⟨s.1, s.2⟩

/-- The op of a compound `MatcherStateManager`: either a primitive op or the
`chain` closure (captures `current` and the iterator of remaining states). -/
inductive StateOp where
  | leaf (op : LeafOp)
  | chainOp (current : Option LeafMgr) (remaining : List LeafMgr)

/-- A `MatcherStateManager`: current state value plus its op. -/
structure StateMgr where
  value : MatcherState
  op : StateOp

/-- The construction loop of `MatcherStateManager::chain`: skip the leading
`Closeable` sub-states, stop at the first other one. -/
def chainFind : List LeafMgr → Option LeafMgr × List LeafMgr
  | [] => (none, [])
  | s :: rest => if s.value = .Closeable then chainFind rest else (some s, rest)

/-- `MatcherStateManager::chain` (with the no-op `before_switch` used by
`conditions`; the offset-recording instantiation lives in `Matcher.chainM`). -/
def chainMgr (states : List LeafMgr) : StateMgr :=
  match chainFind states with
  | (some s, rest) => ⟨s.value, .chainOp (some s) rest⟩
  | (none, _) => ⟨.Closeable, .chainOp none []⟩

/-- One step of a compound op closure.  The chain closure feeds the current
sub-manager; the moment that sub-manager reports `Closeable` the chain
switches to the next sub-state (or stays on the last one). -/
def StateOp.step : StateOp → Buf → Char → MatcherState × StateOp
  | .leaf op, buff, ch =>
    let s := op.step buff ch
    (s.1, .leaf s.2)
  | .chainOp current remaining, buff, ch =>
    match current with
    | none => (.Broken, .chainOp none remaining)
    | some c =>
      let c2 := c.accept buff ch
      match c2.value, remaining with
      | .Closeable, s :: rest => (s.value, .chainOp (some s) rest)
      | .Closeable, [] => (.Closeable, .chainOp (some c2) [])
      | v, rem => (v, .chainOp (some c2) rem)

/-- `MatcherStateManager::accept`: `Broken` panics in the source (unreachable
from the driver, modelled as a no-op); NUL deterministically breaks; otherwise
the op closure runs. -/
def StateMgr.accept (m : StateMgr) (buff : Buf) (ch : Char) : StateMgr :=
  match m.value with
  | .Broken => m
  | _ =>
    if ch = nulChar then { m with value := .Broken }
    else
      let s := m.op.step buff ch
      ⟨s.1, s.2⟩

/-- The sub-manager of one condition inside `MatcherStateManager::conditions`. -/
def condOneMgr (cond : Buf → Char → Bool) : LeafMgr := ⟨.Open, .condOne cond false⟩

/-- `MatcherStateManager::conditions`. -/
def conditionsMgr (conds : List (Buf → Char → Bool)) : StateMgr :=
  chainMgr (conds.map condOneMgr)

/-- The per-character filters built by `MatcherStateManager::text`. -/
def textConds (source : Buf) : List (Buf → Char → Bool) :=
  source.map (fun c => fun _ ch => ch = c)

/-- `MatcherStateManager::text`. -/
def textMgr (source : Buf) : StateMgr := conditionsMgr (textConds source)

/-- `MatcherStateManager::take_while` as a primitive sub-manager. -/
def takeWhileLeaf (filter : Buf → Char → Bool) (min : Nat) : LeafMgr :=
  ⟨checkCount min 0, .takeWhileOp filter min 0⟩

/-- `MatcherStateManager::take_while`. -/
def takeWhileMgr (filter : Buf → Char → Bool) (min : Nat) : StateMgr :=
  ⟨checkCount min 0, .leaf (.takeWhileOp filter min 0)⟩

/-- `MatcherStateManager::filtered_collector`. -/
def filteredCollectorMgr (terminators : List Buf) (filter : Buf → Char → Bool) : StateMgr :=
  ⟨.Open, .leaf (.filteredCollectorOp terminators filter false)⟩

/-! ## Tokens, errors, lexer modes -/

/-- The modelled Rust panics. -/
inductive PanicKind where
  | popEmpty
  | emptyStack
  | sliceBoundary
  | noTerminator
  | otherPanic
deriving DecidableEq, Repr

/-- The token enumeration the lexer code constructs.  (The `tokens.rs` file
in the tree is an earlier revision that wraps a `TokenType` with source
positions; the lexer and its tests use the bare variants below, so those are
what the embedding models.) -/
inductive Token where
  | Plus | Minus | Asterisk | Slash
  | LeftParen | RightParen | LeftSquare | RightSquare
  | LeftBrace | RightBrace | Comma | Dot
  | Equal | DoubleEqual | Bang | BangEqual
  | Greater | GreaterEqual | Less | LessEqual
  | Ampersand | DoubleAmpersand | Pipe | DoublePipe
  | Let | Var | Const | If | Else | For | While | Class | Fn | Return
  | Null
  | BoolLiteral (value : Bool)
  | Identifier (name : String)
  | IntLiteral (value : Int)
  | FloatLiteral (value : String)
  | StringOpen | StringClose
  | StringLiteral (value : String)
  | DollarLeftBrace
  | LineCommentOpen | BlockCommentOpen
  | CommentLiteral (value : String)
  | CommentClose
deriving DecidableEq, Repr

/-- `TokenizationError` of `lexer/mod.rs`. -/
inductive TokenizationError where
  | InvalidToken (token : String)
  | NoEscape
  | EscapeParse (e : EscapeParseError)
  | UnicodeParse (e : UnicodeParseError)
  | NumberParse (e : NumberParseError)
deriving DecidableEq, Repr

/-- `LexerState` of `lexer/state.rs`. -/
inductive LexerState where
  | Normal (fromString : Bool)
  | CompositeString
  | RawString (pounds : Nat)
  | Comment (terminator : String)
deriving DecidableEq, Repr

/-- `LexerState::ignore_whitespace`. -/
def LexerState.ignoreWhitespace : LexerState → Bool
  | .Normal _ => true
  | _ => false

/-- The mode stack (`LinkedList<LexerState>`, front = top). -/
abbrev ModeStack := List LexerState

namespace LexerStateManager

/-- `LexerStateManager::new`: construction pushes `Normal(false)`. -/
def new : ModeStack := [.Normal false]

/-- `LexerStateManager::get`: `front().unwrap()`; `none` is the panic. -/
def get (s : ModeStack) : Option LexerState := s.head?

/-- `LexerStateManager::push`. -/
def push (m : LexerState) (s : ModeStack) : ModeStack := m :: s

/-- `LexerStateManager::pop`: panics (`none`) when the stack would be left
empty. -/
def pop (s : ModeStack) : Option ModeStack :=
  if s.length < 2 then none else some s.tail

end LexerStateManager

/-! ## Matchers -/

/-- Panic-or-value. -/
abbrev PResult (A : Type) := Except PanicKind A

/-- The inner closer closures (`FnMut(&str, &mut LexerStateManager) ->
Result<T, TokenizationError>`). -/
abbrev CloserBody (T : Type) := Buf → ModeStack → PResult (Except TokenizationError T × ModeStack)

/-- A full closer (`close`): also reports how many leading buffer bytes the
matcher consumes. -/
abbrev CloserFn (T : Type) := Buf → ModeStack → PResult (Except TokenizationError (T × Nat) × ModeStack)

/-- `DefaultMatcher<String>`: the shape of every chain sub-matcher in
`state.rs`. -/
structure DMatcher where
  cls : MatcherClass
  mgr : StateMgr
  closer : CloserFn String

/-- A token-producing matcher: a `DefaultMatcher<Token>` or a `ChainMatcher`.
The chain keeps all sub-matchers (the shared `Rc<RefCell<...>>` array), the
cursor of the active one, and the recorded `buffer_indexes`. -/
inductive Matcher where
  | defaultM (cls : MatcherClass) (mgr : StateMgr) (closer : CloserFn Token)
  | chainM (value : MatcherState) (subs : List DMatcher) (cursor : Option Nat)
      (indexes : List Nat)
      (closer : Buf → List String → ModeStack → PResult (Except TokenizationError Token × ModeStack))

/-- `Matcher::state`. -/
def Matcher.state : Matcher → MatcherState
  | .defaultM _ mgr _ => mgr.value
  | .chainM v _ _ _ _ => v

/-- `Matcher::class` (`ChainMatcher` is always `Dynamic`). -/
def Matcher.clsOf : Matcher → MatcherClass
  | .defaultM cls _ _ => cls
  | .chainM _ _ _ _ _ => .Dynamic

/-- `Matcher::accept`.  For a chain, `ChainMatcher::accept` slices the buffer
from the last recorded offset and feeds the chain state manager, which feeds
the active sub-matcher; when that sub-matcher turns `Closeable`,
`before_switch` records the slice length and the chain advances to the next
sub-matcher (or stays on the last one). -/
def Matcher.accept (m : Matcher) (buffer : Buf) (ch : Char) : Matcher :=
  match m with
  | .defaultM cls mgr closer => .defaultM cls (mgr.accept buffer ch) closer
  | .chainM v subs cursor indexes closer =>
    let start := indexes.getLast?.getD 0
    let slice := byteDropLoose buffer start
    match v with
    | .Broken => .chainM v subs cursor indexes closer
    | _ =>
      if ch = nulChar then .chainM .Broken subs cursor indexes closer
      else
        match cursor with
        | none => .chainM .Broken subs cursor indexes closer
        | some i =>
          match subs.get? i with
          | none => .chainM .Broken subs cursor indexes closer
          | some s =>
            let mgr2 := s.mgr.accept slice ch
            let subs2 := subs.set i { s with mgr := mgr2 }
            match mgr2.value with
            | .Closeable =>
              match subs2.get? (i + 1) with
              | some snext =>
                .chainM snext.mgr.value subs2 (some (i + 1)) (indexes ++ [utf8Len slice]) closer
              | none => .chainM .Closeable subs2 (some i) indexes closer
            | v2 => .chainM v2 subs2 (some i) indexes closer

/-- The construction scan of `ChainMatcher::new`: index of the first
sub-matcher whose initial state is not `Closeable`. -/
def chainFindIdx : List DMatcher → Nat → Option Nat
  | [], _ => none
  | s :: rest, i => if s.mgr.value = .Closeable then chainFindIdx rest (i + 1) else some i

/-- `ChainMatcher::new`: the constructor loop records one zero offset per
visited sub-state (`before_switch("")`). -/
def ChainMatcherNew (subs : List DMatcher)
    (closer : Buf → List String → ModeStack → PResult (Except TokenizationError Token × ModeStack)) :
    Matcher :=
  match chainFindIdx subs 0 with
  | some i =>
    let v := match subs.get? i with
      | some s => s.mgr.value
      | none => .Broken
    .chainM v subs (some i) (List.replicate (i + 1) 0) closer
  | none => .chainM .Closeable subs none (List.replicate subs.length 0) closer

/-- `ChainMatcher::close` sub-loop: close sub-matcher `i` on the byte slice
between consecutive recorded offsets, threading the mode stack. -/
def closeSubs : List DMatcher → Nat → List Nat → Buf → ModeStack →
    PResult (List (Except TokenizationError (String × Nat)) × ModeStack)
  | [], _, _, _, stack => .ok ([], stack)
  | s :: rest, i, bounds, buffer, stack =>
    let lo := (bounds.get? i).getD 0
    let hi := (bounds.get? (i + 1)).getD 0
    match s.closer (byteSliceLoose buffer lo hi) stack with
    | .error k => .error k
    | .ok (r, stack2) =>
      match closeSubs rest (i + 1) bounds buffer stack2 with
      | .error k => .error k
      | .ok (rs, stack3) => .ok (r :: rs, stack3)

/-- The value list of chain sub-results (the `[U; N]` array). -/
def subValues (results : List (Except TokenizationError (String × Nat))) : List String :=
  results.filterMap (fun r => match r with | .ok (v, _) => some v | .error _ => none)

/-- `Matcher::close`.  A chain closes every sub-matcher on its recorded
slice, surfaces the first sub-error unchanged, and otherwise feeds the values
to the outer closer; the chain consumes its whole buffer. -/
def Matcher.close (m : Matcher) (buffer : Buf) (stack : ModeStack) :
    PResult (Except TokenizationError (Token × Nat) × ModeStack) :=
  match m with
  | .defaultM _ _ closer => closer buffer stack
  | .chainM _ subs _ indexes closer =>
    let bounds := indexes ++ [utf8Len buffer]
    match closeSubs subs 0 bounds buffer stack with
    | .error k => .error k
    | .ok (results, stack2) =>
      match results.findSome? (fun r => match r with | .error e => some e | .ok _ => none) with
      | some e => .ok (.error e, stack2)
      | none =>
        match closer buffer (subValues results) stack2 with
        | .error k => .error k
        | .ok (r, stack3) => .ok (r.map (fun t => (t, utf8Len buffer)), stack3)

/-! ## `DefaultMatcher` constructors -/

/-- `DefaultMatcher::full_match_closer`: the matcher consumes its whole
buffer. -/
def fullMatchCloser {T : Type} (body : CloserBody T) : CloserFn T :=
  fun buff stack =>
    match body buff stack with
    | .error k => .error k
    | .ok (r, stack2) => .ok (r.map (fun t => (t, utf8Len buff)), stack2)

/-- `DefaultMatcher::text` producing a token. -/
def mkText (source : Buf) (body : CloserBody Token) : Matcher :=
  .defaultM .Fixed (textMgr source) (fullMatchCloser body)

/-- `DefaultMatcher::simple_text`. -/
def mkSimpleText (source : Buf) (result : Token) : Matcher :=
  mkText source (fun _ stack => .ok (.ok result, stack))

/-- `DefaultMatcher::conditions` producing a token. -/
def mkConditions (conds : List (Buf → Char → Bool)) (body : CloserBody Token) : Matcher :=
  .defaultM .Dynamic (conditionsMgr conds) (fullMatchCloser body)

/-- `DefaultMatcher::take_while` producing a token. -/
def mkTakeWhile (filter : Buf → Char → Bool) (min : Nat) (body : CloserBody Token) : Matcher :=
  .defaultM .Dynamic (takeWhileMgr filter min) (fullMatchCloser body)

/-- The close action of `DefaultMatcher::filtered_collector`: find the
terminator actually ending the buffer (`unwrap` panics when absent), strip
it, and report the consumed length with or without the terminator. -/
def collectorCloser {T : Type} (terminators : List Buf) (consumeTerminator : Bool)
    (body : Buf → Buf → ModeStack → PResult (Except TokenizationError T × ModeStack)) :
    CloserFn T :=
  fun buffer stack =>
    match terminators.find? (fun t => t.isSuffixOf buffer) with
    | none => .error .noTerminator
    | some t =>
      let value := buffer.take (buffer.length - t.length)
      match body value t stack with
      | .error k => .error k
      | .ok (r, stack2) =>
        .ok (r.map (fun tok => (tok, if consumeTerminator then utf8Len buffer else utf8Len value)),
             stack2)

/-- `DefaultMatcher::filtered_collector` producing a token. -/
def mkFilteredCollector (terminators : List Buf) (filter : Buf → Char → Bool)
    (consumeTerminator : Bool)
    (body : Buf → Buf → ModeStack → PResult (Except TokenizationError Token × ModeStack)) :
    Matcher :=
  .defaultM .Dynamic (filteredCollectorMgr terminators filter)
    (collectorCloser terminators consumeTerminator body)

/-- `DefaultMatcher::collector`. -/
def mkCollector (terminators : List Buf) (consumeTerminator : Bool)
    (body : Buf → Buf → ModeStack → PResult (Except TokenizationError Token × ModeStack)) :
    Matcher :=
  mkFilteredCollector terminators (fun _ _ => true) consumeTerminator body

/-- `DefaultMatcher::text` producing a string (chain sub-matcher). -/
def subText (source : Buf) (body : CloserBody String) : DMatcher :=
  ⟨.Fixed, textMgr source, fullMatchCloser body⟩

/-- `fixed_text` is called by `state.rs` but absent from `matchers.rs`
(revision skew).  Modelled from the spec: the Fixed `text` matcher whose
produced value is its own text — the behaviour of `text_string`
(`simple_text(value, value.to_string())`). -/
def fixed_text (source : Buf) : DMatcher :=
  subText source (fun _ stack => .ok (.ok (String.mk source), stack))

/-- `DefaultMatcher::conditions` producing a string. -/
def subConditions (conds : List (Buf → Char → Bool)) (body : CloserBody String) : DMatcher :=
  ⟨.Dynamic, conditionsMgr conds, fullMatchCloser body⟩

/-- `DefaultMatcher::take_while` producing a string. -/
def subTakeWhile (filter : Buf → Char → Bool) (min : Nat) (body : CloserBody String) : DMatcher :=
  ⟨.Dynamic, takeWhileMgr filter min, fullMatchCloser body⟩

/-- `take_while_string`: the value is the matched text. -/
def subTakeWhileString (filter : Buf → Char → Bool) (min : Nat) : DMatcher :=
  subTakeWhile filter min (fun value stack => .ok (.ok (String.mk value), stack))

/-- `DefaultMatcher::filtered_collector` producing a string. -/
def subFilteredCollector (terminators : List Buf) (filter : Buf → Char → Bool)
    (consumeTerminator : Bool)
    (body : Buf → Buf → ModeStack → PResult (Except TokenizationError String × ModeStack)) :
    DMatcher :=
  ⟨.Dynamic, filteredCollectorMgr terminators filter,
   collectorCloser terminators consumeTerminator body⟩


/-! ## `lexer/state.rs`: the matcher tables of each mode -/

/-- The `{` closer in `Normal(from_string)`: interpolation tracks brace depth
by pushing another `Normal(true)`. -/
def lbraceCloser (fromString : Bool) : CloserBody Token :=
  fun _ stack =>
    .ok (.ok Token.LeftBrace,
         if fromString then LexerStateManager.push (.Normal true) stack else stack)

/-- The `}` closer in `Normal(from_string)`: pops the mode when inside an
interpolation. -/
def rbraceCloser (fromString : Bool) : CloserBody Token :=
  fun _ stack =>
    if fromString then
      match LexerStateManager.pop stack with
      | none => .error .popEmpty
      | some stack2 => .ok (.ok Token.RightBrace, stack2)
    else .ok (.ok Token.RightBrace, stack)

/-- A closer that pushes a mode and emits a token. -/
def pushCloser (mode : LexerState) (tok : Token) : CloserBody Token :=
  fun _ stack => .ok (.ok tok, LexerStateManager.push mode stack)

/-- A closer that pops the current mode and emits a token. -/
def popCloser (tok : Token) : CloserBody Token :=
  fun _ stack =>
    match LexerStateManager.pop stack with
    | none => .error .popEmpty
    | some stack2 => .ok (.ok tok, stack2)

/-- The raw-string opener closer: push `RawString(pounds.len())`, emit
`StringOpen`. -/
def rawOpenCloser : Buf → Buf → ModeStack → PResult (Except TokenizationError Token × ModeStack) :=
  fun pounds _ stack =>
    .ok (.ok Token.StringOpen, LexerStateManager.push (.RawString (utf8Len pounds)) stack)

/-- The digit filter of `int_literal`: first slice character must be an ASCII
digit, later ones may be `_` or alphanumeric (`buff.len()` is a byte
length). -/
def intDigitsFilter : Buf → Char → Bool := fun buff ch =>
  if utf8Len buff = 1 then isAsciiDigit ch else (ch = '_' || isAlphanumericRust ch)

/-- The digit filter of `float_literal`: additionally allows `.`. -/
def floatDigitsFilter : Buf → Char → Bool := fun buff ch =>
  if utf8Len buff = 1 then isAsciiDigit ch
  else (ch = '_' || ch = '.' || isAlphanumericRust ch)

/-- The outer closer of `int_literal`: decode the whole buffer with
`parse_int`. -/
def intChainCloser : Buf → List String → ModeStack →
    PResult (Except TokenizationError Token × ModeStack) :=
  fun buffer _ stack =>
    match parse_int buffer with
    | none => .error .otherPanic
    | some (.ok v) => .ok (.ok (Token.IntLiteral v), stack)
    | some (.error e) => .ok (.error (.NumberParse e), stack)

/-- The outer closer of `float_literal`. -/
def floatChainCloser : Buf → List String → ModeStack →
    PResult (Except TokenizationError Token × ModeStack) :=
  fun buffer _ stack =>
    match parse_float buffer with
    | none => .error .otherPanic
    | some (.ok v) => .ok (.ok (Token.FloatLiteral v), stack)
    | some (.error e) => .ok (.error (.NumberParse e), stack)

/-- `int_literal` of `LexerState::matchers`. -/
def int_literal (pfx : Buf) : Matcher :=
  ChainMatcherNew [fixed_text pfx, subTakeWhileString intDigitsFilter 1] intChainCloser

/-- `float_literal` of `LexerState::matchers`. -/
def float_literal (pfx : Buf) : Matcher :=
  ChainMatcherNew [fixed_text pfx, subTakeWhileString floatDigitsFilter 1] floatChainCloser

/-- The identifier filter: `_` anywhere; otherwise alphabetic for the first
byte-length-1 buffer, alphanumeric afterwards. -/
def identFilter : Buf → Char → Bool := fun buff ch =>
  ch = '_' || (if utf8Len buff = 1 then isAlphabeticRust ch else isAlphanumericRust ch)

/-- The composite-string fragment terminators: `"`, `${`, `\`. -/
def stringTerms : List Buf := [['"'], ['$', lbrace], ['\\']]

/-- The string-content `take_while` filter: stop as soon as the buffer ends
in a fragment terminator (used for unclosed string literals). -/
def stringContentFilter : Buf → Char → Bool :=
  fun buff _ => !(stringTerms.any (fun t => t.isSuffixOf buff))

/-- The string-literal body closer (emits the collected fragment). -/
def stringLiteralBody : CloserBody Token :=
  fun value stack => .ok (.ok (Token.StringLiteral (String.mk value)), stack)

/-- The collector body emitting a `StringLiteral`. -/
def stringLiteralCollectorBody :
    Buf → Buf → ModeStack → PResult (Except TokenizationError Token × ModeStack) :=
  fun value _ stack => .ok (.ok (Token.StringLiteral (String.mk value)), stack)

/-- The collector body emitting a `CommentLiteral`. -/
def commentLiteralCollectorBody :
    Buf → Buf → ModeStack → PResult (Except TokenizationError Token × ModeStack) :=
  fun value _ stack => .ok (.ok (Token.CommentLiteral (String.mk value)), stack)

/-- The comment-content body closer. -/
def commentLiteralBody : CloserBody Token :=
  fun value stack => .ok (.ok (Token.CommentLiteral (String.mk value)), stack)

/-- The sub-matcher closer returning its matched text. -/
def textValueBody : CloserBody String :=
  fun value stack => .ok (.ok (String.mk value), stack)

/-- The escape chain closer: decode `\<char>` through `escape`. -/
def escapeChainCloser : Buf → List String → ModeStack →
    PResult (Except TokenizationError Token × ModeStack) :=
  fun _ vals stack =>
    let pfx := ((vals.get? 0).getD "").data
    let escaped := ((vals.get? 1).getD "").data
    match escape (pfx ++ escaped) with
    | .ok c => .ok (.ok (Token.StringLiteral (String.mk [c])), stack)
    | .error e => .ok (.error (.EscapeParse e), stack)

/-- The whitespace-escape chain closer: always the `NoEscape` error. -/
def noEscapeChainCloser : Buf → List String → ModeStack →
    PResult (Except TokenizationError Token × ModeStack) :=
  fun _ _ stack => .ok (.error .NoEscape, stack)

/-- The unicode sub-collector closer: decode the hex body through
`parse_unicode`. -/
def unicodeSubBody : Buf → Buf → ModeStack →
    PResult (Except TokenizationError String × ModeStack) :=
  fun hex _ stack =>
    match parse_unicode hex with
    | .ok c => .ok (.ok (String.mk [c]), stack)
    | .error e => .ok (.error (.UnicodeParse e), stack)

/-- The unicode chain closer: the second sub-value is the decoded character. -/
def unicodeChainCloser : Buf → List String → ModeStack →
    PResult (Except TokenizationError Token × ModeStack) :=
  fun _ vals stack => .ok (.ok (Token.StringLiteral ((vals.get? 1).getD "")), stack)

/-- The raw-string terminator: a backquote followed by `pounds` `#` signs. -/
def rawTerminator (pounds : Nat) : Buf := backquote :: List.replicate pounds '#'

/-- `LexerState::matchers`: the matcher set active in each mode, in
declaration order. -/
def LexerState.matchers : LexerState → List Matcher
  | .Normal fromString =>
    [mkSimpleText ['+'] .Plus,
     mkSimpleText ['-'] .Minus,
     mkSimpleText ['*'] .Asterisk,
     mkSimpleText ['/'] .Slash,
     mkSimpleText ['('] .LeftParen,
     mkSimpleText [')'] .RightParen,
     mkSimpleText ['['] .LeftSquare,
     mkSimpleText [']'] .RightSquare,
     mkText [lbrace] (lbraceCloser fromString),
     mkText [rbrace] (rbraceCloser fromString),
     mkSimpleText [','] .Comma,
     mkSimpleText ['.'] .Dot,
     mkSimpleText ['='] .Equal,
     mkSimpleText ['=', '='] .DoubleEqual,
     mkSimpleText ['!'] .Bang,
     mkSimpleText ['!', '='] .BangEqual,
     mkSimpleText ['>'] .Greater,
     mkSimpleText ['>', '='] .GreaterEqual,
     mkSimpleText ['<'] .Less,
     mkSimpleText ['<', '='] .LessEqual,
     mkSimpleText ['&'] .Ampersand,
     mkSimpleText ['&', '&'] .DoubleAmpersand,
     mkSimpleText ['|'] .Pipe,
     mkSimpleText ['|', '|'] .DoublePipe,
     mkText ['"'] (pushCloser .CompositeString .StringOpen),
     mkFilteredCollector [[backquote]] (fun _ ch => ch = '#' || ch = backquote) true rawOpenCloser,
     mkSimpleText ['l', 'e', 't'] .Let,
     mkSimpleText ['v', 'a', 'r'] .Var,
     mkSimpleText ['c', 'o', 'n', 's', 't'] .Const,
     mkSimpleText ['i', 'f'] .If,
     mkSimpleText ['e', 'l', 's', 'e'] .Else,
     mkSimpleText ['f', 'o', 'r'] .For,
     mkSimpleText ['w', 'h', 'i', 'l', 'e'] .While,
     mkSimpleText ['c', 'l', 'a', 's', 's'] .Class,
     mkSimpleText ['f', 'n'] .Fn,
     mkSimpleText ['r', 'e', 't', 'u', 'r', 'n'] .Return,
     mkSimpleText ['n', 'u', 'l', 'l'] .Null,
     mkSimpleText ['t', 'r', 'u', 'e'] (.BoolLiteral true),
     mkSimpleText ['f', 'a', 'l', 's', 'e'] (.BoolLiteral false),
     mkTakeWhile identFilter 1
       (fun value stack => .ok (.ok (Token.Identifier (String.mk value)), stack)),
     int_literal [],
     int_literal ['-'],
     float_literal [],
     float_literal ['-'],
     mkText ['/', '/'] (pushCloser (.Comment "\n") .LineCommentOpen),
     mkText ['/', '*'] (pushCloser (.Comment "*/") .BlockCommentOpen)]
  | .CompositeString =>
    [mkTakeWhile stringContentFilter 0 stringLiteralBody,
     mkCollector stringTerms false stringLiteralCollectorBody,
     mkText ['"'] (popCloser .StringClose),
     mkText ['$', lbrace] (pushCloser (.Normal true) .DollarLeftBrace),
     ChainMatcherNew
       [fixed_text ['\\'],
        subConditions [fun _ ch => !(isWhitespaceRust ch)] textValueBody]
       escapeChainCloser,
     ChainMatcherNew
       [fixed_text ['\\'],
        subConditions [fun _ ch => isWhitespaceRust ch] textValueBody]
       noEscapeChainCloser,
     ChainMatcherNew
       [fixed_text ['\\', 'u', lbrace],
        subFilteredCollector [[rbrace]] (fun _ ch => !(isWhitespaceRust ch)) true unicodeSubBody]
       unicodeChainCloser]
  | .RawString pounds =>
    [mkCollector [rawTerminator pounds] false stringLiteralCollectorBody,
     mkText (rawTerminator pounds) (popCloser .StringClose),
     mkTakeWhile (fun buff _ => !((rawTerminator pounds).isSuffixOf buff)) 0 stringLiteralBody]
  | .Comment terminator =>
    [mkCollector [terminator.data] false commentLiteralCollectorBody,
     mkText terminator.data (popCloser .CommentClose),
     mkTakeWhile (fun buff _ => !(terminator.data.isSuffixOf buff)) 0 commentLiteralBody]

/-! ## `lexer/mod.rs`: the tokenization driver -/

/-- The lexer: remaining character source, carry-over buffer, mode stack,
failed latch. -/
structure Lexer where
  source : List Char
  buffer : Buf
  stack : ModeStack
  failed : Bool
deriving DecidableEq, Repr

/-- `Lexer::new`. -/
def lexerInit (source : List Char) : Lexer :=
  ⟨source, [], LexerStateManager.new, false⟩

/-- `Lexer::clean_buffer`: `trim_end_matches('\0')`. -/
def cleanBuffer (b : Buf) : Buf := (b.reverse.dropWhile (· = nulChar)).reverse

/-- A candidate: a matcher plus the state it had before the last accept. -/
structure Candidate where
  matcher : Matcher
  previous : Option MatcherState

/-- Stable insertion into a class-sorted list: the element goes in front of
the first element it compares less-or-equal to, hence before later elements
of equal class. -/
def insertByClass (m : Matcher) : List Matcher → List Matcher
  | [] => [m]
  | x :: xs => if clsLe m.clsOf x.clsOf then m :: x :: xs else x :: insertByClass m xs

/-- Rust `Vec::sort_by` with the `MatcherClass` comparator.  `sort_by` is a
stable sort, and a stable sort is extensionally determined by its comparator;
this structurally recursive stable insertion sort is that function. -/
def sortByClass : List Matcher → List Matcher
  | [] => []
  | x :: xs => insertByClass x (sortByClass xs)

/-- One outcome of a `next` call: a Rust panic, end of stream (`None`), or a
token / error item together with the updated lexer. -/
inductive LexOut where
  | panic (k : PanicKind)
  | eos (st : Lexer)
  | tok (r : Except TokenizationError Token) (st : Lexer)
deriving Repr

/-- The `inspect_err` latch of `Lexer::next`: an error item sets `failed`. -/
def latchFail (r : Except TokenizationError Token) : Bool :=
  match r with
  | .error _ => true
  | .ok _ => false

/-- The resolution block of `Lexer::next` (lines 122–145), run when every
remaining candidate just broke: keep the candidates whose previous state was
`Closeable`, stable-sort them by class, and close the first one on the buffer
without its final byte (a slicing panic if the breaking character is
multi-byte); with no such candidate, emit `InvalidToken` over the cleaned
buffer.  Returns the token or error, the remaining buffer and the mode
stack; the caller latches the failed flag from the result
(`inspect_err`). -/
def resolve (cands : List Candidate) (buffer : Buf) (stack : ModeStack) :
    PResult (Except TokenizationError Token × Buf × ModeStack) :=
  let closeables :=
    (cands.filter (fun c => c.previous = some MatcherState.Closeable)).map (·.matcher)
  match (sortByClass closeables).head? with
  | none => .ok (.error (.InvalidToken (String.mk (cleanBuffer buffer))), buffer, stack)
  | some w =>
    match byteTake buffer (utf8Len buffer - 1) with
    | none => .error .sliceBoundary
    | some closeBuf =>
      match w.close closeBuf stack with
      | .error k => .error k
      | .ok (.error e, stack2) => .ok (.error e, buffer, stack2)
      | .ok (.ok (tok, n), stack2) =>
        match byteDrop buffer n with
        | none => .error .sliceBoundary
        | some buffer2 => .ok (.ok tok, buffer2, stack2)

/-- Advance every candidate: record its previous state, then accept. -/
def acceptAll (cands : List Candidate) (buffer : Buf) (ch : Char) : List Candidate :=
  cands.map (fun c => ⟨c.matcher.accept buffer ch, some c.matcher.state⟩)

/-- The character loop of `Lexer::next`: the input is the concatenation of
the cleaned carry-over buffer and the remaining source; a NUL sentinel is
appended (the empty-list case).  Whitespace before the first matching
character is skipped in whitespace-ignoring modes; each character is pushed
onto the working buffer and broadcast to all candidates; broken candidates
are pruned while any candidate survives, and the resolution block runs the
moment all of them break. -/
def runChars (stack : ModeStack) (mode : LexerState) :
    List Char → Buf → List Candidate → Bool → LexOut
  | [], buffer, cands, matching =>
    if !matching then .eos ⟨[], buffer, stack, false⟩
    else
      let buffer2 := buffer ++ [nulChar]
      let cands2 := acceptAll cands buffer2 nulChar
      if cands2.any (fun c => c.matcher.state ≠ .Broken) then
        .eos ⟨[], buffer2, stack, false⟩
      else
        match resolve cands2 buffer2 stack with
        | .error k => .panic k
        | .ok (r, buffer3, stack2) => .tok r ⟨[], buffer3, stack2, latchFail r⟩
  | ch :: rest, buffer, cands, matching =>
    if !matching ∧ (ch = nulChar ∨ (mode.ignoreWhitespace ∧ isWhitespaceRust ch)) then
      runChars stack mode rest buffer cands matching
    else
      let buffer2 := buffer ++ [ch]
      let cands2 := acceptAll cands buffer2 ch
      if cands2.any (fun c => c.matcher.state ≠ .Broken) then
        runChars stack mode rest buffer2 (cands2.filter (fun c => c.matcher.state ≠ .Broken)) true
      else
        match resolve cands2 buffer2 stack with
        | .error k => .panic k
        | .ok (r, buffer3, stack2) => .tok r ⟨rest, buffer3, stack2, latchFail r⟩

/-- `Lexer::next`: end of stream once failed; read the top mode (panic on an
empty stack); end of stream when both the cleaned carry-over and the source
are exhausted; otherwise clear the buffer and run the character loop. -/
def lexNext (st : Lexer) : LexOut :=
  if st.failed then .eos st
  else
    match LexerStateManager.get st.stack with
    | none => .panic .emptyStack
    | some mode =>
      let cands := mode.matchers.map (fun m => ⟨m, none⟩)
      let chars := cleanBuffer st.buffer ++ st.source
      match chars with
      | [] => .eos st
      | c :: cs => runChars st.stack mode (c :: cs) [] cands false

/-- Collect up to `fuel` produced items (stop at end of stream or panic). -/
def lexAll : Nat → Lexer → List (Except TokenizationError Token)
  | 0, _ => []
  | n + 1, st =>
    match lexNext st with
    | .tok r st2 => r :: lexAll n st2
    | _ => []

/-- The outcome of the `(n+1)`-th successive call to `next`. -/
def iterNext : Lexer → Nat → LexOut
  | st, 0 => lexNext st
  | st, n + 1 =>
    match lexNext st with
    | .tok _ st2 => iterNext st2 n
    | .eos st2 => iterNext st2 n
    | .panic k => .panic k


/-- Discriminator: is the outcome end-of-stream? -/
def LexOut.isEos : LexOut → Bool
  | .eos _ => true
  | _ => false

/-- Feed characters one at a time to a state manager, pushing each character
onto the cumulative buffer first (the harness of the matcher tests). -/
def feedMgr : StateMgr → Buf → List Char → StateMgr
  | m, _, [] => m
  | m, buffer, c :: cs => feedMgr (m.accept (buffer ++ [c]) c) (buffer ++ [c]) cs

/-! ## `parser/`: the Pratt expression parser

The parser files consume the earlier token revision in which numeric literals
carry their source text; `PToken` models the variants the parser inspects
plus representative tokens without parselets. -/

/-- The parser-side token type. -/
inductive PToken where
  | Null
  | BoolLiteral (value : Bool)
  | IntLiteral (value : String)
  | FloatLiteral (value : String)
  | StringLiteral (value : String)
  | Plus | Asterisk | Minus | RightParen | SemiColon
deriving DecidableEq, Repr

/-- `Literal` of `ast/expressions.rs` (floats carry their cleaned text, as in
the lexer model). -/
inductive Literal where
  | Null
  | Bool (value : Bool)
  | Int (value : Int)
  | Float (value : String)
  | Text (value : String)
deriving DecidableEq, Repr

/-- `UnaryOperation` of `ast/expressions.rs`. -/
inductive UnaryOperation where
  | Negate
  | InvertSign
  | Optional
deriving DecidableEq, Repr

/-- `BinaryOperation` of `ast/expressions.rs`. -/
inductive BinaryOperation where
  | Sum | Subtract | Multiply | Divide | Module
  | Equal | NotEqual | Greater | GreaterEqual | Less | LessEqual
  | And | Or
deriving DecidableEq, Repr

/-- `Expression` of `ast/expressions.rs`. -/
inductive Expression where
  | Literal (l : Literal)
  | StringExpr (parts : List Expression)
  | Unary (op : UnaryOperation) (e : Expression)
  | Binary (op : BinaryOperation) (left right : Expression)
deriving Repr

/-- `ParseError` of `parser/mod.rs`. -/
inductive ParseError where
  | ExpectedAny
  | Expected (t : PToken)
  | InvalidToken (t : PToken)
  | Number (e : NumberParseError)
deriving DecidableEq, Repr

/-- `BindingPower` of `parser/binding.rs`; the derived `Ord` is declaration
order. -/
inductive BindingPower where
  | Default | Literal | Conditional | Additive | Multiplicative
  | Prefix | Postfix | Call
deriving DecidableEq, Repr

/-- Declaration-order rank of a binding power. -/
def BindingPower.toNat : BindingPower → Nat
  | .Default => 0
  | .Literal => 1
  | .Conditional => 2
  | .Additive => 3
  | .Multiplicative => 4
  | .Prefix => 5
  | .Postfix => 6
  | .Call => 7

/-- `parselet.bp() > &min_bp` with the derived `Ord`. -/
def bpGt (a b : BindingPower) : Bool := b.toNat < a.toNat

/-- `nud` of `parser/expressions.rs`: every table entry is a literal parselet
(binding power `Literal`) that consumes no further tokens; the `prefix`
helper exists in the source but no token uses it.  The outer `Option` is the
table lookup; the inner `Option` models the `parse_int` panic arm (never
reached, see the C7 theorem). -/
def nud (t : PToken) : Option (Option (Except ParseError Literal)) :=
  match t with
  | .Null => some (some (.ok .Null))
  | .BoolLiteral b => some (some (.ok (.Bool b)))
  | .IntLiteral s =>
    some (match parse_int s.data with
          | none => none
          | some (.ok v) => some (.ok (.Int v))
          | some (.error e) => some (.error (.Number e)))
  | .FloatLiteral s =>
    some (match parse_float s.data with
          | none => none
          | some (.ok v) => some (.ok (.Float v))
          | some (.error e) => some (.error (.Number e)))
  | .StringLiteral s => some (some (.ok (.Text s)))
  | _ => none

/-- `led` of `parser/expressions.rs`: the binding power and binary operation
of the infix parselets (`postfix` exists in the source but no token uses
it). -/
def led (t : PToken) : Option (BindingPower × BinaryOperation) :=
  match t with
  | .Plus => some (.Additive, .Sum)
  | .Asterisk => some (.Multiplicative, .Multiply)
  | _ => none

mutual

/-- `Parser::parse_expression_capped`: consume one token, run its NUD, then
run the LED loop.  The fuel bounds the recursion depth; every recursive call
consumes at least one token, so `tokens.length + 1` fuel always suffices, and
`none` marks fuel exhaustion or a modelled panic. -/
def parseExpressionCapped : Nat → BindingPower → List PToken →
    Option (Except ParseError (Expression × List PToken))
  | 0, _, _ => none
  | fuel + 1, minBp, tokens =>
    match tokens with
    | [] => some (.error .ExpectedAny)
    | t :: rest =>
      match nud t with
      | none => some (.error (.InvalidToken t))
      | some none => none
      | some (some (.error e)) => some (.error e)
      | some (some (.ok lit)) => ledLoop fuel minBp (.Literal lit) rest

/-- The `while let Some(token) = self.peek()` loop of
`parse_expression_capped`: stop at end of input; a peeked token without a LED
is an `InvalidToken` error; while the LED binds strictly tighter than the
minimum, consume the operator, parse the right operand capped at the operator
power and fold a `Binary` node; otherwise stop and return the accumulated
left subtree. -/
def ledLoop : Nat → BindingPower → Expression → List PToken →
    Option (Except ParseError (Expression × List PToken))
  | 0, _, _, _ => none
  | fuel + 1, minBp, left, tokens =>
    match tokens with
    | [] => some (.ok (left, []))
    | t :: rest =>
      match led t with
      | none => some (.error (.InvalidToken t))
      | some (bp, op) =>
        if bpGt bp minBp then
          match parseExpressionCapped fuel bp rest with
          | none => none
          | some (.error e) => some (.error e)
          | some (.ok (right, rest2)) => ledLoop fuel minBp (.Binary op left right) rest2
        else some (.ok (left, tokens))

end

/-- `Parser::parse_expression`. -/
def parseExpression (tokens : List PToken) :
    Option (Except ParseError (Expression × List PToken)) :=
  parseExpressionCapped (tokens.length + 1) .Default tokens


/-! ## Spec-side characterisations used by the claim theorems -/

/-- The mathematical base-16 value of a digit run (invalid characters count
as zero; only used under an all-digits hypothesis). -/
def hexNatValue (t : Buf) : Nat :=
  t.foldl (fun acc c => acc * 16 + ((hexDigitVal c).getD 0)) 0

/-- Spec-side reading of the strings the unsigned base-16 parse accepts: an
optional leading `+`, then a nonempty run `t` of hexadecimal digits whose
value fits in 32 bits. -/
def HexDigits (s t : Buf) : Prop :=
  (s = '+' :: t ∨ s = t) ∧ t ≠ [] ∧ (∀ c ∈ t, (hexDigitVal c).isSome) ∧
    hexNatValue t < 2 ^ 32

/-- The mode-stack invariant of C9: the stack is never empty, its bottom
element is `Normal(false)`, and the bottom marker appears nowhere else. -/
def StackInv (s : ModeStack) : Prop :=
  s ≠ [] ∧ s.getLast? = some (.Normal false) ∧ LexerState.Normal false ∉ s.dropLast

/-- A token closer is stack-safe for a mode: run on an invariant stack whose
top is that mode, it cannot hit the `pop` panic and it preserves the
invariant (on the error path too, whose stack is also kept). -/
def SafeCloser (mode : LexerState) (cl : CloserFn Token) : Prop :=
  ∀ buf st, StackInv st → st.head? = some mode →
    cl buf st ≠ .error .popEmpty ∧
    ∀ r st2, cl buf st = .ok (r, st2) → StackInv st2

/-- A sub-matcher closer that neither touches the stack nor pops (every
chain sub-closer in `state.rs` is stack-neutral). -/
def NeutralCloserS (cl : CloserFn String) : Prop :=
  ∀ buf st, cl buf st ≠ .error .popEmpty ∧
    ∀ r st2, cl buf st = .ok (r, st2) → st2 = st

/-- A chain outer closer that neither touches the stack nor pops (every
chain outer closer in `state.rs` is stack-neutral). -/
def NeutralChainCloser
    (cl : Buf → List String → ModeStack →
      PResult (Except TokenizationError Token × ModeStack)) : Prop :=
  ∀ buf vals st, cl buf vals st ≠ .error .popEmpty ∧
    ∀ r st2, cl buf vals st = .ok (r, st2) → st2 = st

/-- Stack safety of a matcher for a mode: its closers cannot pop-panic and
preserve the invariant. -/
def MatcherSafe (mode : LexerState) : Matcher → Prop
  | .defaultM _ _ closer => SafeCloser mode closer
  | .chainM _ subs _ _ closer =>
    (∀ s ∈ subs, NeutralCloserS s.closer) ∧ NeutralChainCloser closer

/-- The lexer states reachable from a fresh lexer by successive calls to
`next`. -/
inductive Reach : Lexer → Prop
  | init (s : List Char) : Reach (lexerInit s)
  | stepTok {st : Lexer} {r : Except TokenizationError Token} {st2 : Lexer} :
      Reach st → lexNext st = .tok r st2 → Reach st2
  | stepEos {st st2 : Lexer} : Reach st → lexNext st = .eos st2 → Reach st2

/-! ## The claim theorems -/

/-- The character sequence of the concrete scenario `"fo${if}o"`. -/
def c1Input : List Char := ['"', 'f', 'o', '$', lbrace, 'i', 'f', rbrace, 'o', '"']

/-- C1: lexing `"fo${if}o"` emits exactly StringOpen, StringLiteral("fo"),
DollarLeftBrace, If, RightBrace, StringLiteral("o"), StringClose, and the
call after the seventh token reports end of stream. -/
theorem c1_interpolated_string_tokens :
    lexAll 12 (lexerInit c1Input) =
      [.ok .StringOpen, .ok (.StringLiteral "fo"), .ok .DollarLeftBrace, .ok .If,
       .ok .RightBrace, .ok (.StringLiteral "o"), .ok .StringClose] ∧
    (iterNext (lexerInit c1Input) 7).isEos = true :=
  ⟨rfl, rfl⟩

/-- C2: on input `a¡` every candidate breaks on `¡` while the identifier
matcher was previously Closeable, so the claim mandates closing it on the
buffer without the breaking character (yielding `Identifier("a")`); the code
instead slices `buffer[..buffer.len() - 1]`, a byte index inside the two-byte
`¡`, and panics on the character boundary. -/
theorem c2_close_slice_panics :
    lexNext (lexerInit ['a', Char.ofNat 0xA1]) = .panic .sliceBoundary := by
  rfl

/-- C4 counterexample: on input `@` every candidate breaks on the very first
character with no previously-Closeable candidate; the emitted payload is the
full cleaned buffer `"@"` — not the buffer excluding the breaking character,
which would be the empty string. -/
theorem c4_counterexample :
    lexNext (lexerInit ['@']) =
      .tok (.error (.InvalidToken "@")) ⟨[], ['@'], [.Normal false], true⟩ ∧
    cleanBuffer ['@'] ≠ (['@'] : Buf).dropLast :=
  ⟨rfl, by decide⟩

/-- C4 amended: when every candidate breaks and none was previously
Closeable, the driver emits `InvalidToken` whose payload is the working
buffer — breaking character included — with trailing NUL sentinels stripped,
keeps the buffer as carry-over, and latches failed. -/
theorem c4_invalid_token_payload (cands : List Candidate) (buffer : Buf) (stack : ModeStack)
    (h : cands.filter (fun c => c.previous = some MatcherState.Closeable) = []) :
    resolve cands buffer stack =
      .ok (.error (.InvalidToken (String.mk (cleanBuffer buffer))), buffer, stack) ∧
    latchFail (.error (.InvalidToken (String.mk (cleanBuffer buffer)))) = true := by
  constructor
  · unfold resolve
    rw [h]
    rfl
  · rfl

/-- Witness for the C4 amended theorem at a concrete instance. -/
theorem c4_invalid_token_payload_witness :
    resolve [] ['@'] [.Normal false] =
      .ok (.error (.InvalidToken "@"), ['@'], [.Normal false]) ∧
    latchFail (.error (.InvalidToken "@")) = true :=
  c4_invalid_token_payload [] ['@'] [.Normal false] rfl

/-- C5 counterexample: in `chain([take_while(digit, 1), take_while(= x, 1)])`
the first sub-matcher becomes Closeable on `1` and the chain immediately
switches, so `2` is offered to the second sub-matcher and the whole chain
breaks — even though the first sub-matcher, in the state it had after `1`,
would have accepted `2` without breaking. -/
theorem c5_counterexample :
    (feedMgr (chainMgr [takeWhileLeaf (fun _ ch => ch.isDigit) 1,
                        takeWhileLeaf (fun _ ch => ch = 'x') 1]) [] ['1', '2']).value
      = .Broken ∧
    (LeafMgr.accept ⟨.Closeable, .takeWhileOp (fun _ ch => ch.isDigit) 1 1⟩
        ['1', '2'] '2').value ≠ .Broken :=
  ⟨rfl, by decide⟩

/-- C5 amended: the chain combinator transitions eagerly — the moment the
active sub-matcher becomes Closeable on a character, the chain switches to
the successor, which starts in its own initial state; the next character is
offered to the successor and never again to the closed sub-matcher. -/
theorem c5_chain_transition (c s : LeafMgr) (rest : List LeafMgr) (buff : Buf) (ch : Char)
    (h : (c.accept buff ch).value = .Closeable) :
    StateOp.step (.chainOp (some c) (s :: rest)) buff ch =
      (s.value, .chainOp (some s) rest) := by
  simp only [StateOp.step]
  rw [h]

/-- Witness for the C5 amended theorem at a concrete instance. -/
theorem c5_chain_transition_witness :
    StateOp.step
        (.chainOp (some (takeWhileLeaf (fun _ ch => ch.isDigit) 1))
          [takeWhileLeaf (fun _ ch => ch = 'x') 1]) ['1'] '1'
      = ((takeWhileLeaf (fun _ ch => ch = 'x') 1).value,
         .chainOp (some (takeWhileLeaf (fun _ ch => ch = 'x') 1)) []) :=
  c5_chain_transition _ _ _ _ _ rfl

/-- C6 counterexample: after the NUD of `1` has produced a left subtree, the
peeked `)` has no LED parselet; the claim mandates that the loop stop and
return the literal, but the parser fails with `InvalidToken()`. -/
theorem c6_counterexample :
    parseExpression [.IntLiteral "1", .RightParen] =
      some (.error (.InvalidToken .RightParen)) := by
  rfl

/-- C6 amended: the LED loop stops at end of input and whenever the peeked
token has a LED whose power does not exceed the minimum, returning the
accumulated left subtree; a peeked token with no LED parselet makes the call
fail with `InvalidToken` instead of stopping. -/
theorem c6_led_loop_behaviour (fuel : Nat) (minBp : BindingPower) (left : Expression)
    (t : PToken) (rest : List PToken) :
    (ledLoop (fuel + 1) minBp left [] = some (.ok (left, []))) ∧
    (led t = none →
      ledLoop (fuel + 1) minBp left (t :: rest) = some (.error (.InvalidToken t))) ∧
    (∀ bp op, led t = some (bp, op) → bpGt bp minBp = false →
      ledLoop (fuel + 1) minBp left (t :: rest) = some (.ok (left, t :: rest))) := by
  refine ⟨rfl, ?_, ?_⟩
  · intro h
    simp [ledLoop, h]
  · intro bp op h hbp
    simp [ledLoop, h, hbp]

/-- Witness for the C6 amended theorem at concrete instances. -/
theorem c6_led_loop_behaviour_witness :
    ledLoop 1 .Default (.Literal (.Int 1)) [.SemiColon] =
      some (.error (.InvalidToken .SemiColon)) ∧
    ledLoop 1 .Multiplicative (.Literal (.Int 1)) [.Plus] =
      some (.ok (.Literal (.Int 1), [.Plus])) :=
  ⟨(c6_led_loop_behaviour 0 .Default (.Literal (.Int 1)) .SemiColon []).2.1 rfl,
   (c6_led_loop_behaviour 0 .Multiplicative (.Literal (.Int 1)) .Plus []).2.2
     .Additive .Sum rfl rfl⟩

/-- C8 counterexample: `+41` is not a string of hexadecimal digits, yet
`parse_unicode` does not return `InvalidHex` — the underlying unsigned
`from_str_radix` accepts a leading `+`, so the call succeeds with `A`. -/
theorem c8_counterexample :
    parse_unicode ['+', '4', '1'] = .ok 'A' ∧
    (['+', '4', '1'].all (fun c => (hexDigitVal c).isSome)) = false :=
  ⟨rfl, by decide⟩

/-- C10: the lexer is deterministic — its output sequence is a function of
the input character sequence alone, so two lexers constructed over equal
sources agree on every successive call. -/
theorem c10_lexer_deterministic (s1 s2 : List Char) (h : s1 = s2) (n : Nat) :
    iterNext (lexerInit s1) n = iterNext (lexerInit s2) n := by
  rw [h]

/-- Witness for C10 at a concrete instance. -/
theorem c10_lexer_deterministic_witness :
    iterNext (lexerInit ['@']) 0 = iterNext (lexerInit ['@']) 0 :=
  c10_lexer_deterministic ['@'] ['@'] rfl 0


/-- A failed lexer reports end of stream with its state untouched. -/
theorem lexNext_of_failed {st : Lexer} (h : st.failed = true) : lexNext st = .eos st := by
  unfold lexNext
  simp [h]

/-- Every error item produced by the character loop carries a lexer whose
failed latch is set. -/
theorem runChars_error_latches {stack : ModeStack} {mode : LexerState} :
    ∀ {chars : List Char} {buffer : Buf} {cands : List Candidate} {matching : Bool}
      {e : TokenizationError} {st2 : Lexer},
      runChars stack mode chars buffer cands matching = .tok (.error e) st2 →
      st2.failed = true := by
  intro chars
  induction chars with
  | nil =>
    intro buffer cands matching e st2 h
    unfold runChars at h
    dsimp only at h
    repeat' split at h
    all_goals first
      | exact LexOut.noConfusion h
      | (injection h with h1 h2; subst h2; subst h1; rfl)
  | cons ch rest ih =>
    intro buffer cands matching e st2 h
    unfold runChars at h
    dsimp only at h
    repeat' split at h
    all_goals first
      | exact ih h
      | exact LexOut.noConfusion h
      | (injection h with h1 h2; subst h2; subst h1; rfl)

/-- C3: once a call has returned an error item, every subsequent call to
`next` reports end of stream — no further token and no further error. -/
theorem c3_fail_closed (st st2 : Lexer) (e : TokenizationError)
    (h : lexNext st = .tok (.error e) st2) :
    ∀ n, iterNext st2 n = .eos st2 := by
  have hf : st2.failed = true := by
    unfold lexNext at h
    dsimp only at h
    repeat' split at h
    all_goals first
      | exact runChars_error_latches h
      | exact LexOut.noConfusion h
  intro n
  induction n with
  | zero => exact lexNext_of_failed hf
  | succ n ih =>
    show iterNext st2 (n + 1) = .eos st2
    unfold iterNext
    rw [lexNext_of_failed hf]
    exact ih

/-- Witness for C3: the error on input `@` latches the stream closed. -/
theorem c3_fail_closed_witness :
    iterNext ⟨[], ['@'], [.Normal false], true⟩ 3 = .eos ⟨[], ['@'], [.Normal false], true⟩ :=
  c3_fail_closed (lexerInit ['@']) ⟨[], ['@'], [.Normal false], true⟩
    (.InvalidToken "@") rfl 3


/-- `from_str_radix` on a nonempty string never reports `Empty` (the panic
arm of `map_int_error` is therefore unreachable from `parse_int`). -/
theorem fromStrRadix_cons_ne_empty (radix : Nat) (c : Char) (s : Buf) :
    fromStrRadix radix (c :: s) ≠ .error .Empty := by
  unfold fromStrRadix
  dsimp only
  repeat' split
  all_goals simp

/-- A value produced by `from_str_radix` lies in the 64-bit signed range. -/
theorem fromStrRadix_ok_range {radix : Nat} {s : Buf} {v : Int}
    (h : fromStrRadix radix s = .ok v) : -(2 ^ 63) ≤ v ∧ v ≤ 2 ^ 63 - 1 := by
  unfold fromStrRadix at h
  dsimp only at h
  repeat' split at h
  all_goals first
    | exact Except.noConfusion h
    | (injection h with h1; subst h1; omega)

/-- The lifted `from_str_radix` call of `parse_int` never panics and obeys
the closed taxonomy and the value range. -/
theorem liftIntResult_spec (radix : Nat) (c : Char) (s : Buf) :
    ∃ r, liftIntResult (fromStrRadix radix (c :: s)) = some r ∧
      (∀ v, r = .ok v → -(2 ^ 63) ≤ v ∧ v ≤ 2 ^ 63 - 1) ∧
      (∀ e, r = .error e →
        e = .InvalidInt ∨ (∃ rx, e = .InvalidRadix rx) ∨
        e = .PositiveOverflow ∨ e = .NegativeOverflow) := by
  cases hfr : fromStrRadix radix (c :: s) with
  | ok v =>
    refine ⟨.ok v, rfl, ?_, ?_⟩
    · intro w hw
      injection hw with hw1
      subst hw1
      exact fromStrRadix_ok_range hfr
    · intro e he
      exact Except.noConfusion he
  | error ek =>
    cases ek with
    | Empty => exact absurd hfr (fromStrRadix_cons_ne_empty radix c s)
    | InvalidDigit =>
      exact ⟨.error .InvalidInt, rfl, fun v hv => Except.noConfusion hv,
        fun e he => by injection he with he1; subst he1; exact Or.inl rfl⟩
    | PosOverflow =>
      exact ⟨.error .PositiveOverflow, rfl, fun v hv => Except.noConfusion hv,
        fun e he => by injection he with he1; subst he1; exact Or.inr (Or.inr (Or.inl rfl))⟩
    | NegOverflow =>
      exact ⟨.error .NegativeOverflow, rfl, fun v hv => Except.noConfusion hv,
        fun e he => by injection he with he1; subst he1; exact Or.inr (Or.inr (Or.inr rfl))⟩

/-- C7: `parse_int` is total — no input reaches a panic arm — and its
outcomes are closed: either a value in the 64-bit signed range, or one of
`InvalidInt`, `InvalidRadix(ch)`, `PositiveOverflow`, `NegativeOverflow`
(never `InvalidFloat`). -/
theorem c7_parse_int_total (source : Buf) :
    ∃ r, parse_int source = some r ∧
      (∀ v, r = .ok v → -(2 ^ 63) ≤ v ∧ v ≤ 2 ^ 63 - 1) ∧
      (∀ e, r = .error e →
        e = .InvalidInt ∨ (∃ rx, e = .InvalidRadix rx) ∨
        e = .PositiveOverflow ∨ e = .NegativeOverflow) := by
  unfold parse_int
  dsimp only
  repeat' split
  all_goals first
    | exact liftIntResult_spec _ _ _
    | exact ⟨.error .InvalidInt, rfl, fun v hv => Except.noConfusion hv,
        fun e he => by injection he with he1; subst he1; exact Or.inl rfl⟩
    | exact ⟨.ok 0, rfl, fun v hv => by injection hv with hv1; subst hv1; constructor <;> decide,
        fun e he => Except.noConfusion he⟩
    | exact ⟨.error (.InvalidRadix _), rfl, fun v hv => Except.noConfusion hv,
        fun e he => by injection he with he1; subst he1; exact Or.inr (Or.inl ⟨_, rfl⟩)⟩


/-- The digit run of a `HexDigits` split is determined by the string. -/
theorem hexDigits_determined {s t : Buf} (h : HexDigits s t) :
    ∃ c rest, s = c :: rest ∧ t = (if c = '+' then rest else c :: rest) := by
  obtain ⟨hd, hne, hall, _⟩ := h
  cases s with
  | nil =>
    rcases hd with h1 | h1
    · exact List.noConfusion h1
    · exact absurd h1.symm hne
  | cons c rest =>
    refine ⟨c, rest, rfl, ?_⟩
    rcases hd with h1 | h1
    · injection h1 with hc hr
      subst hc
      simp [hr]
    · by_cases hc : c = '+'
      · subst hc
        have : (hexDigitVal '+').isSome := hall '+' (h1 ▸ List.mem_cons_self '+' rest)
        exact absurd this (by decide)
      · simp [hc, ← h1]

/-- `hexDigitList` succeeds exactly on all-digit runs, and then the
accumulated fold of the digit list equals the fold over the characters. -/
theorem hexDigitList_spec (l : Buf) :
    match hexDigitList l with
    | none => ¬ (∀ c ∈ l, (hexDigitVal c).isSome)
    | some ds => (∀ c ∈ l, (hexDigitVal c).isSome) ∧
        ∀ n : Nat, ds.foldl (fun acc d => acc * 16 + d) n =
          l.foldl (fun acc c => acc * 16 + ((hexDigitVal c).getD 0)) n := by
  induction l with
  | nil => exact ⟨by simp, fun n => rfl⟩
  | cons c rest ih =>
    unfold hexDigitList
    cases hc : hexDigitVal c with
    | none =>
      dsimp only
      intro hall
      have := hall c (List.mem_cons_self c rest)
      simp [hc] at this
    | some d =>
      cases hr : hexDigitList rest with
      | none =>
        rw [hr] at ih
        dsimp only
        intro hall
        exact ih fun x hx => hall x (List.mem_cons_of_mem c hx)
      | some ds =>
        rw [hr] at ih
        dsimp only
        refine ⟨?_, ?_⟩
        · intro x hx
          rcases List.mem_cons.mp hx with rfl | hx2
          · simp [hc]
          · exact ih.1 x hx2
        · intro n
          simp only [List.foldl_cons, hc, Option.getD_some]
          exact ih.2 (n * 16 + d)

/-- If the input splits as an optional `+` before a nonempty in-range digit
run, the unsigned base-16 parse succeeds with the value of that run. -/
theorem u32_some_of_hexDigits {s t : Buf} (ht : HexDigits s t) :
    u32FromHex s = some (hexNatValue t) := by
  obtain ⟨c, rest, hcons, hteq⟩ := hexDigits_determined ht
  subst hcons
  unfold u32FromHex
  dsimp only
  rw [← hteq]
  obtain ⟨a, t2, hat⟩ := List.exists_cons_of_ne_nil ht.2.1
  rw [hat]
  simp only [List.isEmpty_cons, Bool.false_eq_true, if_false]
  have hm := hexDigitList_spec (a :: t2)
  cases hmm : hexDigitList (a :: t2) with
  | none =>
    rw [hmm] at hm
    exact absurd (fun x hx => ht.2.2.1 x (hat ▸ hx)) hm
  | some ds =>
    rw [hmm] at hm
    dsimp only
    have hfold : ds.foldl (fun acc d => acc * 16 + d) 0 = hexNatValue (a :: t2) := hm.2 0
    rw [hfold, ← hat, if_pos ht.2.2.2]

/-- If the unsigned base-16 parse succeeds, the input splits as an optional
`+` before a nonempty in-range digit run with that value. -/
theorem hexDigits_of_u32_some {s : Buf} {v : Nat} (h : u32FromHex s = some v) :
    ∃ t, HexDigits s t ∧ hexNatValue t = v := by
  unfold u32FromHex at h
  cases s with
  | nil => exact Option.noConfusion h
  | cons c rest =>
    dsimp only at h
    generalize hd : (if c = '+' then rest else c :: rest) = digits at h
    have hm := hexDigitList_spec digits
    by_cases hemp : digits.isEmpty = true
    · rw [if_pos hemp] at h
      exact Option.noConfusion h
    · rw [if_neg hemp] at h
      cases hmm : hexDigitList digits with
      | none =>
        rw [hmm] at h
        exact Option.noConfusion h
      | some ds =>
        rw [hmm] at h
        rw [hmm] at hm
        dsimp only at h
        by_cases hb : ds.foldl (fun acc d => acc * 16 + d) 0 < 2 ^ 32
        · rw [if_pos hb] at h
          injection h with hv
          refine ⟨digits, ⟨?_, ?_, hm.1, ?_⟩, ?_⟩
          · by_cases hplus : c = '+'
            · rw [if_pos hplus] at hd
              subst hd
              exact Or.inl (by rw [hplus])
            · rw [if_neg hplus] at hd
              subst hd
              exact Or.inr rfl
          · intro he
            rw [he] at hemp
            exact hemp rfl
          · unfold hexNatValue
            rw [← hm.2 0]
            exact hb
          · unfold hexNatValue
            rw [← hm.2 0]
            exact hv
        · rw [if_neg hb] at h
          exact Option.noConfusion h

/-- C8 amended: `parse_unicode` returns `InvalidHex` exactly when the input
is not an optional `+` followed by a nonempty run of hexadecimal digits whose
value fits in 32 bits (so `+41` succeeds, and an all-hex string whose value
overflows 32 bits is `InvalidHex`, not `InvalidValue`); on an accepted run it
returns the decoded character when the code point is a Unicode scalar value
and `InvalidValue` otherwise. -/
theorem c8_parse_unicode_taxonomy (s : Buf) :
    (parse_unicode s = .error (.InvalidHex (String.mk s)) ↔ ¬ ∃ t, HexDigits s t) ∧
    (∀ t, HexDigits s t →
      parse_unicode s =
        if isScalarValue (hexNatValue t) then .ok (Char.ofNat (hexNatValue t))
        else .error (.InvalidValue (String.mk s))) := by
  constructor
  · constructor
    · rintro h ⟨t, ht⟩
      have hsome := u32_some_of_hexDigits ht
      unfold parse_unicode at h
      rw [hsome] at h
      dsimp only at h
      by_cases hsc : isScalarValue (hexNatValue t)
      · rw [if_pos hsc] at h
        exact Except.noConfusion h
      · rw [if_neg hsc] at h
        injection h with h1
        exact UnicodeParseError.noConfusion h1
    · intro hno
      unfold parse_unicode
      cases hu : u32FromHex s with
      | none => rfl
      | some v =>
        obtain ⟨t, ht, _⟩ := hexDigits_of_u32_some hu
        exact absurd ⟨t, ht⟩ hno
  · intro t ht
    unfold parse_unicode
    rw [u32_some_of_hexDigits ht]

/-- Witness for the C8 amended theorem: `1F600` decodes to the emoji scalar
value. -/
theorem c8_parse_unicode_taxonomy_witness :
    parse_unicode ['1', 'F', '6', '0', '0'] =
      if isScalarValue (hexNatValue ['1', 'F', '6', '0', '0'])
      then .ok (Char.ofNat (hexNatValue ['1', 'F', '6', '0', '0']))
      else .error (.InvalidValue (String.mk ['1', 'F', '6', '0', '0'])) :=
  (c8_parse_unicode_taxonomy ['1', 'F', '6', '0', '0']).2 ['1', 'F', '6', '0', '0']
    ⟨Or.inr rfl, by decide, by decide, by decide⟩


/-! ## C9: the mode stack is never empty -/

/-- Under the invariant, a top mode other than the bottom marker forces at
least two stack entries. -/
theorem stackInv_length {s : ModeStack} {m : LexerState} (hinv : StackInv s)
    (hh : s.head? = some m) (hm : m ≠ .Normal false) : 2 ≤ s.length := by
  cases s with
  | nil => exact Option.noConfusion hh
  | cons a rest =>
    cases rest with
    | nil =>
      injection hh with ha
      subst ha
      injection hinv.2.1 with hb
      exact absurd hb hm
    | cons b t => simp [List.length]

/-- Under the invariant, a stack with at least two entries pops to an
invariant stack. -/
theorem pop_safe {s : ModeStack} (hinv : StackInv s) (hlen : 2 ≤ s.length) :
    ∃ s2, LexerStateManager.pop s = some s2 ∧ StackInv s2 := by
  unfold LexerStateManager.pop
  rw [if_neg (by omega)]
  cases s with
  | nil => simp at hlen
  | cons a rest =>
    obtain ⟨b, t, hbt⟩ : ∃ b t, rest = b :: t := by
      cases rest with
      | nil => simp at hlen
      | cons b t => exact ⟨b, t, rfl⟩
    subst hbt
    refine ⟨b :: t, rfl, by simp, ?_, ?_⟩
    · rw [← List.getLast?_cons_cons]
      exact hinv.2.1
    · intro hmem
      exact hinv.2.2 (by simp [List.dropLast_cons₂, hmem])

/-- Pushing any non-bottom mode preserves the invariant. -/
theorem push_inv {s : ModeStack} {m : LexerState} (hinv : StackInv s)
    (hm : m ≠ .Normal false) : StackInv (LexerStateManager.push m s) := by
  obtain ⟨hne, hlast, hmem⟩ := hinv
  obtain ⟨b, t, hbt⟩ : ∃ b t, s = b :: t := by
    cases s with
    | nil => exact absurd rfl hne
    | cons b t => exact ⟨b, t, rfl⟩
  subst hbt
  refine ⟨by simp [LexerStateManager.push], ?_, ?_⟩
  · rw [LexerStateManager.push, List.getLast?_cons_cons]
    exact hlast
  · rw [LexerStateManager.push, List.dropLast_cons₂]
    intro hx
    rcases List.mem_cons.mp hx with hx1 | hx2
    · exact hm hx1.symm
    · exact hmem hx2

/-- A body that returns its stack unchanged gives a neutral/invariant
behaviour for `full_match_closer`-built closers. -/
theorem okBody_prop {T : Type} {body : CloserBody T}
    (h : ∀ buf st, ∃ r, body buf st = .ok (r, st)) :
    ∀ buf st, body buf st ≠ .error .popEmpty ∧
      ∀ r st2, body buf st = .ok (r, st2) → st2 = st := by
  intro buf st
  obtain ⟨r, hr⟩ := h buf st
  rw [hr]
  refine ⟨fun hx => Except.noConfusion hx, fun r2 st2 hx => ?_⟩
  injection hx with h1
  exact (congrArg Prod.snd h1).symm

/-- `full_match_closer` lifts an invariant-preserving body to a stack-safe
closer. -/
theorem fullMatch_safe {mode : LexerState} {body : CloserBody Token}
    (hb : ∀ buf st, StackInv st → st.head? = some mode →
      body buf st ≠ .error .popEmpty ∧
      ∀ r st2, body buf st = .ok (r, st2) → StackInv st2) :
    SafeCloser mode (fullMatchCloser body) := by
  intro buf st hinv hh
  obtain ⟨h1, h2⟩ := hb buf st hinv hh
  unfold fullMatchCloser
  cases hbody : body buf st with
  | error k =>
    refine ⟨fun hx => ?_, fun r st2 hx => Except.noConfusion hx⟩
    injection hx with hk
    exact h1 (by rw [hbody, hk])
  | ok pr =>
    obtain ⟨r0, st0⟩ := pr
    refine ⟨fun hx => Except.noConfusion hx, fun r st2 hx => ?_⟩
    injection hx with h3
    injection h3 with h4 h5
    rw [← h5]
    exact h2 r0 st0 hbody

/-- `full_match_closer` lifts a stack-neutral body to a neutral closer. -/
theorem fullMatch_neutral {body : CloserBody String}
    (hb : ∀ buf st, body buf st ≠ .error .popEmpty ∧
      ∀ r st2, body buf st = .ok (r, st2) → st2 = st) :
    NeutralCloserS (fullMatchCloser body) := by
  intro buf st
  obtain ⟨h1, h2⟩ := hb buf st
  unfold fullMatchCloser
  cases hbody : body buf st with
  | error k =>
    refine ⟨fun hx => ?_, fun r st2 hx => Except.noConfusion hx⟩
    injection hx with hk
    exact h1 (by rw [hbody, hk])
  | ok pr =>
    obtain ⟨r0, st0⟩ := pr
    refine ⟨fun hx => Except.noConfusion hx, fun r st2 hx => ?_⟩
    injection hx with h3
    injection h3 with h4 h5
    rw [← h5]
    exact h2 r0 st0 hbody

/-- The collector closer wrapper lifts an invariant-preserving body to a
stack-safe closer (a missing terminator panics with `noTerminator`, never
`popEmpty`). -/
theorem collector_safe {mode : LexerState} {terms : List Buf} {consume : Bool}
    {body : Buf → Buf → ModeStack → PResult (Except TokenizationError Token × ModeStack)}
    (hb : ∀ v t st, StackInv st → st.head? = some mode →
      body v t st ≠ .error .popEmpty ∧
      ∀ r st2, body v t st = .ok (r, st2) → StackInv st2) :
    SafeCloser mode (collectorCloser terms consume body) := by
  intro buf st hinv hh
  unfold collectorCloser
  cases hfind : terms.find? (fun t => t.isSuffixOf buf) with
  | none =>
    dsimp only
    exact ⟨fun hx => by injection hx with hk; exact PanicKind.noConfusion hk,
      fun r st2 hx => Except.noConfusion hx⟩
  | some t =>
    dsimp only
    obtain ⟨h1, h2⟩ := hb (buf.take (buf.length - t.length)) t st hinv hh
    cases hbody : body (buf.take (buf.length - t.length)) t st with
    | error k =>
      refine ⟨fun hx => ?_, fun r st2 hx => Except.noConfusion hx⟩
      injection hx with hk
      exact h1 (by rw [hbody, hk])
    | ok pr =>
      obtain ⟨r0, st0⟩ := pr
      refine ⟨fun hx => Except.noConfusion hx, fun r st2 hx => ?_⟩
      injection hx with h3
      injection h3 with h4 h5
      rw [← h5]
      exact h2 r0 st0 hbody

/-- The collector closer wrapper lifts a stack-neutral body to a neutral
closer. -/
theorem collector_neutral {terms : List Buf} {consume : Bool}
    {body : Buf → Buf → ModeStack → PResult (Except TokenizationError String × ModeStack)}
    (hb : ∀ v t st, body v t st ≠ .error .popEmpty ∧
      ∀ r st2, body v t st = .ok (r, st2) → st2 = st) :
    NeutralCloserS (collectorCloser terms consume body) := by
  intro buf st
  unfold collectorCloser
  cases hfind : terms.find? (fun t => t.isSuffixOf buf) with
  | none =>
    dsimp only
    exact ⟨fun hx => by injection hx with hk; exact PanicKind.noConfusion hk,
      fun r st2 hx => Except.noConfusion hx⟩
  | some t =>
    dsimp only
    obtain ⟨h1, h2⟩ := hb (buf.take (buf.length - t.length)) t st
    cases hbody : body (buf.take (buf.length - t.length)) t st with
    | error k =>
      refine ⟨fun hx => ?_, fun r st2 hx => Except.noConfusion hx⟩
      injection hx with hk
      exact h1 (by rw [hbody, hk])
    | ok pr =>
      obtain ⟨r0, st0⟩ := pr
      refine ⟨fun hx => Except.noConfusion hx, fun r st2 hx => ?_⟩
      injection hx with h3
      injection h3 with h4 h5
      rw [← h5]
      exact h2 r0 st0 hbody


/-- Lift a stack-keeping token body to the invariant-preserving form. -/
theorem invBody_of_ok {mode : LexerState} {body : CloserBody Token}
    (h : ∀ buf st, ∃ r, body buf st = .ok (r, st)) :
    ∀ buf st, StackInv st → st.head? = some mode →
      body buf st ≠ .error .popEmpty ∧
      ∀ r st2, body buf st = .ok (r, st2) → StackInv st2 := by
  intro buf st hinv _
  obtain ⟨h1, h2⟩ := okBody_prop h buf st
  exact ⟨h1, fun r st2 hx => (h2 r st2 hx) ▸ hinv⟩

/-- Stack-keeping two-argument (collector) bodies are neutral. -/
theorem okBody2_prop {T : Type}
    {body : Buf → Buf → ModeStack → PResult (Except TokenizationError T × ModeStack)}
    (h : ∀ v t st, ∃ r, body v t st = .ok (r, st)) :
    ∀ v t st, body v t st ≠ .error .popEmpty ∧
      ∀ r st2, body v t st = .ok (r, st2) → st2 = st := by
  intro v t st
  obtain ⟨r, hr⟩ := h v t st
  rw [hr]
  refine ⟨fun hx => Except.noConfusion hx, fun r2 st2 hx => ?_⟩
  injection hx with h1
  injection h1 with h2 h3
  exact h3.symm

/-- `simple_text` matchers are stack-safe in any mode. -/
theorem safe_simple_text (mode : LexerState) (src : Buf) (tok : Token) :
    MatcherSafe mode (mkSimpleText src tok) :=
  fullMatch_safe (invBody_of_ok fun _ _ => ⟨.ok tok, rfl⟩)

/-- `take_while` matchers with a stack-keeping body are stack-safe. -/
theorem safe_takeWhile_pure (mode : LexerState) (filter : Buf → Char → Bool) (min : Nat)
    {body : CloserBody Token} (h : ∀ buf st, ∃ r, body buf st = .ok (r, st)) :
    MatcherSafe mode (mkTakeWhile filter min body) :=
  fullMatch_safe (invBody_of_ok h)

/-- The `push` closers preserve the invariant for any pushed non-bottom
mode. -/
theorem pushBody_prop (mode : LexerState) (m : LexerState) (tok : Token)
    (hm : m ≠ .Normal false) :
    ∀ buf st, StackInv st → st.head? = some mode →
      pushCloser m tok buf st ≠ .error .popEmpty ∧
      ∀ r st2, pushCloser m tok buf st = .ok (r, st2) → StackInv st2 := by
  intro buf st hinv _
  refine ⟨fun hx => Except.noConfusion hx, fun r st2 hx => ?_⟩
  injection hx with h1
  injection h1 with h2 h3
  rw [← h3]
  exact push_inv hinv hm

/-- The `pop` closers are safe whenever the current mode is not the bottom
marker. -/
theorem popBody_prop (mode : LexerState) (tok : Token) (hm : mode ≠ .Normal false) :
    ∀ buf st, StackInv st → st.head? = some mode →
      popCloser tok buf st ≠ .error .popEmpty ∧
      ∀ r st2, popCloser tok buf st = .ok (r, st2) → StackInv st2 := by
  intro buf st hinv hh
  obtain ⟨s2, hpop, hinv2⟩ := pop_safe hinv (stackInv_length hinv hh hm)
  unfold popCloser
  rw [hpop]
  refine ⟨fun hx => Except.noConfusion hx, fun r st2 hx => ?_⟩
  injection hx with h1
  injection h1 with h2 h3
  rw [← h3]
  exact hinv2

/-- Text matchers with a push closer are stack-safe. -/
theorem safe_text_push (mode : LexerState) (src : Buf) (m : LexerState) (tok : Token)
    (hm : m ≠ .Normal false) : MatcherSafe mode (mkText src (pushCloser m tok)) :=
  fullMatch_safe (pushBody_prop mode m tok hm)

/-- Text matchers with a pop closer are stack-safe away from the bottom
mode. -/
theorem safe_text_pop (mode : LexerState) (src : Buf) (tok : Token)
    (hm : mode ≠ .Normal false) : MatcherSafe mode (mkText src (popCloser tok)) :=
  fullMatch_safe (popBody_prop mode tok hm)

/-- The `{` matcher of `Normal(b)` is stack-safe: it pushes `Normal(true)`
only when `b` holds. -/
theorem safe_lbrace (b : Bool) : MatcherSafe (.Normal b) (mkText [lbrace] (lbraceCloser b)) := by
  refine fullMatch_safe ?_
  intro buf st hinv _
  unfold lbraceCloser
  refine ⟨fun hx => Except.noConfusion hx, fun r st2 hx => ?_⟩
  injection hx with h1
  injection h1 with h2 h3
  rw [← h3]
  cases b with
  | true =>
    rw [if_pos rfl]
    exact push_inv hinv (by decide)
  | false =>
    rw [if_neg (by decide)]
    exact hinv

/-- The `}` matcher of `Normal(b)` is stack-safe: it pops only when `b`
holds, and then the top `Normal(true)` guarantees two stack entries. -/
theorem safe_rbrace (b : Bool) : MatcherSafe (.Normal b) (mkText [rbrace] (rbraceCloser b)) := by
  refine fullMatch_safe ?_
  intro buf st hinv hh
  unfold rbraceCloser
  cases b with
  | false =>
    rw [if_neg (by decide)]
    refine ⟨fun hx => Except.noConfusion hx, fun r st2 hx => ?_⟩
    injection hx with h1
    injection h1 with h2 h3
    rw [← h3]
    exact hinv
  | true =>
    rw [if_pos rfl]
    obtain ⟨s2, hpop, hinv2⟩ := pop_safe hinv (stackInv_length hinv hh (by decide))
    rw [hpop]
    refine ⟨fun hx => Except.noConfusion hx, fun r st2 hx => ?_⟩
    injection hx with h1
    injection h1 with h2 h3
    rw [← h3]
    exact hinv2

/-- Filtered collectors with a stack-keeping body are stack-safe. -/
theorem safe_filtered_collector_pure (mode : LexerState) (terms : List Buf)
    (filter : Buf → Char → Bool) (consume : Bool)
    {body : Buf → Buf → ModeStack → PResult (Except TokenizationError Token × ModeStack)}
    (h : ∀ v t st, ∃ r, body v t st = .ok (r, st)) :
    MatcherSafe mode (mkFilteredCollector terms filter consume body) := by
  refine collector_safe ?_
  intro v t st hinv _
  obtain ⟨h1, h2⟩ := okBody2_prop h v t st
  exact ⟨h1, fun r st2 hx => (h2 r st2 hx) ▸ hinv⟩

/-- The raw-string opener pushes `RawString(n)` and is stack-safe. -/
theorem safe_raw_open (mode : LexerState) :
    MatcherSafe mode
      (mkFilteredCollector [[backquote]] (fun _ ch => ch = '#' || ch = backquote) true
        rawOpenCloser) := by
  refine collector_safe ?_
  intro v t st hinv _
  unfold rawOpenCloser
  refine ⟨fun hx => Except.noConfusion hx, fun r st2 hx => ?_⟩
  injection hx with h1
  injection h1 with h2 h3
  rw [← h3]
  exact push_inv hinv (fun hx => by cases hx)

/-- Sub-matcher closers built from stack-keeping bodies are neutral. -/
theorem subCloser_neutral_of_ok {body : CloserBody String}
    (h : ∀ buf st, ∃ r, body buf st = .ok (r, st)) :
    NeutralCloserS (fullMatchCloser body) :=
  fullMatch_neutral (okBody_prop h)

/-- The unicode hex sub-collector body keeps the stack. -/
theorem unicodeSubBody_ok (v t : Buf) (st : ModeStack) :
    ∃ r, unicodeSubBody v t st = .ok (r, st) := by
  unfold unicodeSubBody
  cases parse_unicode v with
  | ok c => exact ⟨_, rfl⟩
  | error e => exact ⟨_, rfl⟩

/-- A chain outer closer whose outcomes are a stack-keeping value or the
`otherPanic` arm is neutral. -/
theorem neutralChain_of_cases
    {cl : Buf → List String → ModeStack → PResult (Except TokenizationError Token × ModeStack)}
    (h : ∀ buf vals st,
      (∃ r, cl buf vals st = .ok (r, st)) ∨ cl buf vals st = .error .otherPanic) :
    NeutralChainCloser cl := by
  intro buf vals st
  rcases h buf vals st with ⟨r, hr⟩ | hr
  · rw [hr]
    refine ⟨fun hx => Except.noConfusion hx, fun r2 st2 hx => ?_⟩
    injection hx with h1
    injection h1 with h2 h3
    exact h3.symm
  · rw [hr]
    exact ⟨fun hx => by injection hx with hk; exact PanicKind.noConfusion hk,
      fun r2 st2 hx => Except.noConfusion hx⟩

/-- The integer chain closer is neutral. -/
theorem intChainCloser_neutral : NeutralChainCloser intChainCloser := by
  refine neutralChain_of_cases ?_
  intro buf vals st
  unfold intChainCloser
  cases parse_int buf with
  | none => exact Or.inr rfl
  | some r0 =>
    cases r0 with
    | ok v => exact Or.inl ⟨_, rfl⟩
    | error e => exact Or.inl ⟨_, rfl⟩

/-- The float chain closer is neutral. -/
theorem floatChainCloser_neutral : NeutralChainCloser floatChainCloser := by
  refine neutralChain_of_cases ?_
  intro buf vals st
  unfold floatChainCloser
  cases parse_float buf with
  | none => exact Or.inr rfl
  | some r0 =>
    cases r0 with
    | ok v => exact Or.inl ⟨_, rfl⟩
    | error e => exact Or.inl ⟨_, rfl⟩

/-- The escape chain closer is neutral. -/
theorem escapeChainCloser_neutral : NeutralChainCloser escapeChainCloser := by
  refine neutralChain_of_cases ?_
  intro buf vals st
  unfold escapeChainCloser
  dsimp only
  cases escape (((vals.get? 0).getD "").data ++ ((vals.get? 1).getD "").data) with
  | ok c => exact Or.inl ⟨_, rfl⟩
  | error e => exact Or.inl ⟨_, rfl⟩

/-- The whitespace-escape chain closer is neutral. -/
theorem noEscapeChainCloser_neutral : NeutralChainCloser noEscapeChainCloser :=
  neutralChain_of_cases fun _ _ _ => Or.inl ⟨_, rfl⟩

/-- The unicode chain closer is neutral. -/
theorem unicodeChainCloser_neutral : NeutralChainCloser unicodeChainCloser :=
  neutralChain_of_cases fun _ _ _ => Or.inl ⟨_, rfl⟩

/-- `ChainMatcher::new` with neutral sub-closers and a neutral outer closer
is stack-safe. -/
theorem safe_chain (mode : LexerState) (subs : List DMatcher)
    (closer : Buf → List String → ModeStack → PResult (Except TokenizationError Token × ModeStack))
    (hs : ∀ s ∈ subs, NeutralCloserS s.closer) (hc : NeutralChainCloser closer) :
    MatcherSafe mode (ChainMatcherNew subs closer) := by
  unfold ChainMatcherNew
  cases chainFindIdx subs 0 with
  | none => exact ⟨hs, hc⟩
  | some i => exact ⟨hs, hc⟩

/-- `int_literal` is stack-safe. -/
theorem safe_int_literal (mode : LexerState) (pfx : Buf) :
    MatcherSafe mode (int_literal pfx) := by
  unfold int_literal
  refine safe_chain mode _ _ ?_ intChainCloser_neutral
  intro s hs
  simp only [List.mem_cons, List.not_mem_nil, or_false] at hs
  rcases hs with rfl | rfl
  · exact subCloser_neutral_of_ok fun _ _ => ⟨_, rfl⟩
  · exact subCloser_neutral_of_ok fun _ _ => ⟨_, rfl⟩

/-- `float_literal` is stack-safe. -/
theorem safe_float_literal (mode : LexerState) (pfx : Buf) :
    MatcherSafe mode (float_literal pfx) := by
  unfold float_literal
  refine safe_chain mode _ _ ?_ floatChainCloser_neutral
  intro s hs
  simp only [List.mem_cons, List.not_mem_nil, or_false] at hs
  rcases hs with rfl | rfl
  · exact subCloser_neutral_of_ok fun _ _ => ⟨_, rfl⟩
  · exact subCloser_neutral_of_ok fun _ _ => ⟨_, rfl⟩


/-- Every matcher in the matcher table of a mode is stack-safe for that
mode. -/
theorem matchers_safe (mode : LexerState) : ∀ m ∈ mode.matchers, MatcherSafe mode m := by
  intro m hm
  cases mode with
  | Normal b =>
    simp only [LexerState.matchers, List.mem_cons, List.not_mem_nil, or_false] at hm
    rcases hm with rfl|rfl|rfl|rfl|rfl|rfl|rfl|rfl|rfl|rfl|rfl|rfl|rfl|rfl|rfl|rfl|rfl|rfl|rfl|rfl|rfl|rfl|rfl|rfl|rfl|rfl|rfl|rfl|rfl|rfl|rfl|rfl|rfl|rfl|rfl|rfl|rfl|rfl|rfl|rfl|rfl|rfl|rfl|rfl|rfl|rfl
    all_goals first
      | exact safe_simple_text _ _ _
      | exact safe_lbrace b
      | exact safe_rbrace b
      | exact safe_text_push _ _ _ _ (by decide)
      | exact safe_raw_open _
      | exact safe_takeWhile_pure _ _ _ (fun _ _ => ⟨_, rfl⟩)
      | exact safe_int_literal _ _
      | exact safe_float_literal _ _
  | CompositeString =>
    simp only [LexerState.matchers, List.mem_cons, List.not_mem_nil, or_false] at hm
    rcases hm with rfl|rfl|rfl|rfl|rfl|rfl|rfl
    · exact safe_takeWhile_pure _ _ _ (fun _ _ => ⟨_, rfl⟩)
    · exact safe_filtered_collector_pure _ _ _ _ (fun _ _ _ => ⟨_, rfl⟩)
    · exact safe_text_pop _ _ _ (by decide)
    · exact safe_text_push _ _ _ _ (by decide)
    · refine safe_chain _ _ _ ?_ escapeChainCloser_neutral
      intro s hs
      simp only [List.mem_cons, List.not_mem_nil, or_false] at hs
      rcases hs with rfl | rfl
      · exact subCloser_neutral_of_ok fun _ _ => ⟨_, rfl⟩
      · exact subCloser_neutral_of_ok fun _ _ => ⟨_, rfl⟩
    · refine safe_chain _ _ _ ?_ noEscapeChainCloser_neutral
      intro s hs
      simp only [List.mem_cons, List.not_mem_nil, or_false] at hs
      rcases hs with rfl | rfl
      · exact subCloser_neutral_of_ok fun _ _ => ⟨_, rfl⟩
      · exact subCloser_neutral_of_ok fun _ _ => ⟨_, rfl⟩
    · refine safe_chain _ _ _ ?_ unicodeChainCloser_neutral
      intro s hs
      simp only [List.mem_cons, List.not_mem_nil, or_false] at hs
      rcases hs with rfl | rfl
      · exact subCloser_neutral_of_ok fun _ _ => ⟨_, rfl⟩
      · exact collector_neutral (okBody2_prop unicodeSubBody_ok)
  | RawString pounds =>
    simp only [LexerState.matchers, List.mem_cons, List.not_mem_nil, or_false] at hm
    rcases hm with rfl|rfl|rfl
    · exact safe_filtered_collector_pure _ _ _ _ (fun _ _ _ => ⟨_, rfl⟩)
    · exact safe_text_pop _ _ _ (fun hx => by cases hx)
    · exact safe_takeWhile_pure _ _ _ (fun _ _ => ⟨_, rfl⟩)
  | Comment terminator =>
    simp only [LexerState.matchers, List.mem_cons, List.not_mem_nil, or_false] at hm
    rcases hm with rfl|rfl|rfl
    · exact safe_filtered_collector_pure _ _ _ _ (fun _ _ _ => ⟨_, rfl⟩)
    · exact safe_text_pop _ _ _ (fun hx => by cases hx)
    · exact safe_takeWhile_pure _ _ _ (fun _ _ => ⟨_, rfl⟩)


/-- `accept` never changes a closer, so stack safety is preserved. -/
theorem matcherSafe_accept {mode : LexerState} {m : Matcher} (h : MatcherSafe mode m)
    (buffer : Buf) (ch : Char) : MatcherSafe mode (m.accept buffer ch) := by
  cases m with
  | defaultM cls mgr closer => exact h
  | chainM v subs cur idx closer =>
    obtain ⟨hs, hc⟩ := h
    have hset : ∀ (i : Nat) (s : DMatcher) (mgr2 : StateMgr),
        subs.get? i = some s →
        ∀ s2 ∈ subs.set i { s with mgr := mgr2 }, NeutralCloserS s2.closer := by
      intro i s mgr2 hg s2 hs2
      rcases List.mem_or_eq_of_mem_set hs2 with h1 | rfl
      · exact hs s2 h1
      · exact hs s (List.get?_mem hg)
    unfold Matcher.accept
    dsimp only
    repeat' split
    all_goals refine ⟨?_, hc⟩
    all_goals first
      | exact hs
      | exact hset _ _ _ (by assumption)

/-- The chain close sub-loop over neutral sub-closers keeps the stack and
cannot pop-panic. -/
theorem closeSubs_neutral {subs : List DMatcher}
    (hs : ∀ s ∈ subs, NeutralCloserS s.closer) :
    ∀ (i : Nat) (bounds : List Nat) (buffer : Buf) (st : ModeStack),
      closeSubs subs i bounds buffer st ≠ .error .popEmpty ∧
      ∀ rs st2, closeSubs subs i bounds buffer st = .ok (rs, st2) → st2 = st := by
  induction subs with
  | nil =>
    intro i bounds buffer st
    refine ⟨fun hx => Except.noConfusion hx, fun rs st2 hx => ?_⟩
    injection hx with h1
    injection h1 with h2 h3
    exact h3.symm
  | cons s rest ih =>
    intro i bounds buffer st
    obtain ⟨h1, h2⟩ :=
      hs s (List.mem_cons_self s rest)
        (byteSliceLoose buffer ((bounds.get? i).getD 0) ((bounds.get? (i + 1)).getD 0)) st
    have hrest : ∀ x ∈ rest, NeutralCloserS x.closer :=
      fun x hx => hs x (List.mem_cons_of_mem s hx)
    unfold closeSubs
    dsimp only
    cases hcl : s.closer
        (byteSliceLoose buffer ((bounds.get? i).getD 0) ((bounds.get? (i + 1)).getD 0)) st with
    | error k =>
      dsimp only
      refine ⟨fun hx => ?_, fun rs st2 hx => Except.noConfusion hx⟩
      injection hx with hk
      exact h1 (by rw [hcl, hk])
    | ok pr =>
      obtain ⟨r0, st0⟩ := pr
      have hst0 : st0 = st := h2 r0 st0 hcl
      subst hst0
      dsimp only
      obtain ⟨h3, h4⟩ := ih hrest (i + 1) bounds buffer st0
      cases hrec : closeSubs rest (i + 1) bounds buffer st0 with
      | error k =>
        dsimp only
        refine ⟨fun hx => ?_, fun rs st2 hx => Except.noConfusion hx⟩
        injection hx with hk
        exact h3 (by rw [hrec, hk])
      | ok pr2 =>
        obtain ⟨rs0, st3⟩ := pr2
        have hst3 : st3 = st0 := h4 rs0 st3 hrec
        subst hst3
        dsimp only
        refine ⟨fun hx => Except.noConfusion hx, fun rs st2 hx => ?_⟩
        injection hx with hx1
        injection hx1 with hx2 hx3
        exact hx3.symm

/-- Closing a stack-safe matcher on an invariant stack topped by its mode
cannot pop-panic and preserves the invariant. -/
theorem close_safe {mode : LexerState} {m : Matcher} (hm : MatcherSafe mode m)
    {buffer : Buf} {st : ModeStack} (hinv : StackInv st) (hh : st.head? = some mode) :
    m.close buffer st ≠ .error .popEmpty ∧
    ∀ r st2, m.close buffer st = .ok (r, st2) → StackInv st2 := by
  cases m with
  | defaultM cls mgr closer => exact hm buffer st hinv hh
  | chainM v subs cur idx closer =>
    obtain ⟨hs, hc⟩ := hm
    unfold Matcher.close
    dsimp only
    obtain ⟨h1, h2⟩ := closeSubs_neutral hs 0 (idx ++ [utf8Len buffer]) buffer st
    cases hcs : closeSubs subs 0 (idx ++ [utf8Len buffer]) buffer st with
    | error k =>
      dsimp only
      refine ⟨fun hx => ?_, fun r st2 hx => Except.noConfusion hx⟩
      injection hx with hk
      exact h1 (by rw [hcs, hk])
    | ok pr =>
      obtain ⟨results, st0⟩ := pr
      have hst0 : st0 = st := h2 results st0 hcs
      subst hst0
      dsimp only
      cases hfind : results.findSome?
          (fun r => match r with | .error e => some e | .ok _ => none) with
      | some e =>
        dsimp only
        refine ⟨fun hx => Except.noConfusion hx, fun r st2 hx => ?_⟩
        injection hx with hx1
        injection hx1 with hx2 hx3
        rw [← hx3]
        exact hinv
      | none =>
        dsimp only
        obtain ⟨hc1, hc2⟩ := hc buffer (subValues results) st0
        cases hcl : closer buffer (subValues results) st0 with
        | error k =>
          dsimp only
          refine ⟨fun hx => ?_, fun r st2 hx => Except.noConfusion hx⟩
          injection hx with hk
          exact hc1 (by rw [hcl, hk])
        | ok pr2 =>
          obtain ⟨r2, st3⟩ := pr2
          have hst3 : st3 = st0 := hc2 r2 st3 hcl
          subst hst3
          dsimp only
          refine ⟨fun hx => Except.noConfusion hx, fun r st2 hx => ?_⟩
          injection hx with hx1
          injection hx1 with hx2 hx3
          rw [← hx3]
          exact hinv

/-- Membership is preserved through the stable insertion. -/
theorem mem_insertByClass {x m : Matcher} {l : List Matcher}
    (h : x ∈ insertByClass m l) : x = m ∨ x ∈ l := by
  induction l with
  | nil =>
    unfold insertByClass at h
    rcases List.mem_singleton.mp h with rfl
    exact Or.inl rfl
  | cons a rest ih =>
    unfold insertByClass at h
    by_cases hc : clsLe m.clsOf a.clsOf
    · rw [if_pos hc] at h
      rcases List.mem_cons.mp h with rfl | h2
      · exact Or.inl rfl
      · exact Or.inr h2
    · rw [if_neg hc] at h
      rcases List.mem_cons.mp h with rfl | h2
      · exact Or.inr (List.mem_cons_self _ _)
      · rcases ih h2 with h3 | h3
        · exact Or.inl h3
        · exact Or.inr (List.mem_cons_of_mem _ h3)

/-- Membership is preserved through the class sort. -/
theorem mem_sortByClass {x : Matcher} {l : List Matcher}
    (h : x ∈ sortByClass l) : x ∈ l := by
  induction l with
  | nil => exact absurd h (by simp [sortByClass])
  | cons a rest ih =>
    unfold sortByClass at h
    rcases mem_insertByClass h with rfl | h2
    · exact List.mem_cons_self _ _
    · exact List.mem_cons_of_mem _ (ih h2)

/-- The resolution block cannot pop-panic and preserves the invariant, as
long as every candidate is stack-safe for the current top mode. -/
theorem resolve_safe {cands : List Candidate} {buffer : Buf} {stack : ModeStack}
    {mode : LexerState} (hinv : StackInv stack) (hh : stack.head? = some mode)
    (hc : ∀ c ∈ cands, MatcherSafe mode c.matcher) :
    resolve cands buffer stack ≠ .error .popEmpty ∧
    ∀ r b2 s2, resolve cands buffer stack = .ok (r, b2, s2) → StackInv s2 := by
  unfold resolve
  dsimp only
  cases hhead : (sortByClass ((cands.filter
      (fun c => c.previous = some MatcherState.Closeable)).map (·.matcher))).head? with
  | none =>
    dsimp only
    refine ⟨fun hx => Except.noConfusion hx, fun r b2 s2 hx => ?_⟩
    injection hx with hx1
    injection hx1 with hx2 hx3
    injection hx3 with hx4 hx5
    rw [← hx5]
    exact hinv
  | some w =>
    dsimp only
    have hwmem : MatcherSafe mode w := by
      have h1 : w ∈ sortByClass ((cands.filter
          (fun c => c.previous = some MatcherState.Closeable)).map (·.matcher)) := by
        cases hl : sortByClass ((cands.filter
            (fun c => c.previous = some MatcherState.Closeable)).map (·.matcher)) with
        | nil => rw [hl] at hhead; exact Option.noConfusion hhead
        | cons y ys =>
          rw [hl] at hhead
          injection hhead with hy
          rw [hy]
          exact List.mem_cons_self _ _
      have h2 := mem_sortByClass h1
      obtain ⟨c, hcf, hcm⟩ := List.mem_map.mp h2
      rw [← hcm]
      exact hc c (List.mem_of_mem_filter hcf)
    cases hbt : byteTake buffer (utf8Len buffer - 1) with
    | none =>
      dsimp only
      exact ⟨fun hx => by injection hx with hk; exact PanicKind.noConfusion hk,
        fun r b2 s2 hx => Except.noConfusion hx⟩
    | some closeBuf =>
      dsimp only
      obtain ⟨h1, h2⟩ := @close_safe mode w hwmem closeBuf stack hinv hh
      cases hcl : w.close closeBuf stack with
      | error k =>
        dsimp only
        refine ⟨fun hx => ?_, fun r b2 s2 hx => Except.noConfusion hx⟩
        injection hx with hk
        exact h1 (by rw [hcl, hk])
      | ok pr =>
        obtain ⟨r0, st0⟩ := pr
        have hst0 : StackInv st0 := h2 r0 st0 hcl
        cases r0 with
        | error e =>
          dsimp only
          refine ⟨fun hx => Except.noConfusion hx, fun r b2 s2 hx => ?_⟩
          injection hx with hx1
          injection hx1 with hx2 hx3
          injection hx3 with hx4 hx5
          rw [← hx5]
          exact hst0
        | ok pr2 =>
          obtain ⟨tok, n⟩ := pr2
          dsimp only
          cases hbd : byteDrop buffer n with
          | none =>
            dsimp only
            exact ⟨fun hx => by injection hx with hk; exact PanicKind.noConfusion hk,
              fun r b2 s2 hx => Except.noConfusion hx⟩
          | some buffer2 =>
            dsimp only
            refine ⟨fun hx => Except.noConfusion hx, fun r b2 s2 hx => ?_⟩
            injection hx with hx1
            injection hx1 with hx2 hx3
            injection hx3 with hx4 hx5
            rw [← hx5]
            exact hst0

/-- The character loop: no pop panic, and every produced lexer state carries
an invariant stack. -/
theorem runChars_safe {stack : ModeStack} {mode : LexerState}
    (hinv : StackInv stack) (hh : stack.head? = some mode) :
    ∀ {chars : List Char} {buffer : Buf} {cands : List Candidate} {matching : Bool},
      (∀ c ∈ cands, MatcherSafe mode c.matcher) →
      runChars stack mode chars buffer cands matching ≠ .panic .popEmpty ∧
      (∀ r st2, runChars stack mode chars buffer cands matching = .tok r st2 →
        StackInv st2.stack) ∧
      (∀ st2, runChars stack mode chars buffer cands matching = .eos st2 →
        StackInv st2.stack) := by
  intro chars
  induction chars with
  | nil =>
    intro buffer cands matching hc
    have hacc : ∀ c ∈ acceptAll cands (buffer ++ [nulChar]) nulChar,
        MatcherSafe mode c.matcher := by
      intro c2 hc2
      obtain ⟨c0, hc0, hc0e⟩ := List.mem_map.mp hc2
      rw [← hc0e]
      exact matcherSafe_accept (hc c0 hc0) _ _
    obtain ⟨hr1, hr2⟩ := @resolve_safe (acceptAll cands (buffer ++ [nulChar]) nulChar)
      (buffer ++ [nulChar]) stack mode hinv hh hacc
    unfold runChars
    dsimp only
    split
    · exact ⟨fun hx => LexOut.noConfusion hx,
        fun r st2 hx => LexOut.noConfusion hx,
        fun st2 hx => by injection hx with h1; rw [← h1]; exact hinv⟩
    · split
      · exact ⟨fun hx => LexOut.noConfusion hx,
          fun r st2 hx => LexOut.noConfusion hx,
          fun st2 hx => by injection hx with h1; rw [← h1]; exact hinv⟩
      · split
        · rename_i k hk
          refine ⟨fun hx => ?_, fun r st2 hx => LexOut.noConfusion hx,
            fun st2 hx => LexOut.noConfusion hx⟩
          injection hx with hx1
          rw [hx1] at hk
          exact hr1 hk
        · rename_i r0 b0 s0 hk
          refine ⟨fun hx => LexOut.noConfusion hx, fun r st2 hx => ?_,
            fun st2 hx => LexOut.noConfusion hx⟩
          injection hx with hx1 hx2
          rw [← hx2]
          exact hr2 r0 b0 s0 hk
  | cons ch rest ih =>
    intro buffer cands matching hc
    have hacc : ∀ c ∈ acceptAll cands (buffer ++ [ch]) ch,
        MatcherSafe mode c.matcher := by
      intro c2 hc2
      obtain ⟨c0, hc0, hc0e⟩ := List.mem_map.mp hc2
      rw [← hc0e]
      exact matcherSafe_accept (hc c0 hc0) _ _
    have hflt : ∀ c ∈ (acceptAll cands (buffer ++ [ch]) ch).filter
        (fun c => c.matcher.state ≠ MatcherState.Broken), MatcherSafe mode c.matcher :=
      fun c2 hc2 => hacc c2 (List.mem_of_mem_filter hc2)
    obtain ⟨hr1, hr2⟩ := @resolve_safe (acceptAll cands (buffer ++ [ch]) ch)
      (buffer ++ [ch]) stack mode hinv hh hacc
    unfold runChars
    dsimp only
    split
    · exact ih hc
    · split
      · exact ih hflt
      · split
        · rename_i k hk
          refine ⟨fun hx => ?_, fun r st2 hx => LexOut.noConfusion hx,
            fun st2 hx => LexOut.noConfusion hx⟩
          injection hx with hx1
          rw [hx1] at hk
          exact hr1 hk
        · rename_i r0 b0 s0 hk
          refine ⟨fun hx => LexOut.noConfusion hx, fun r st2 hx => ?_,
            fun st2 hx => LexOut.noConfusion hx⟩
          injection hx with hx1 hx2
          rw [← hx2]
          exact hr2 r0 b0 s0 hk

/-- `Lexer::next` from a state with an invariant stack: it cannot pop-panic
and every successor state keeps the invariant. -/
theorem lexNext_safe {st : Lexer} (hinv : StackInv st.stack) :
    lexNext st ≠ .panic .popEmpty ∧
    (∀ r st2, lexNext st = .tok r st2 → StackInv st2.stack) ∧
    (∀ st2, lexNext st = .eos st2 → StackInv st2.stack) := by
  unfold lexNext
  by_cases hf : st.failed
  · rw [if_pos hf]
    exact ⟨fun hx => LexOut.noConfusion hx,
      fun r st2 hx => LexOut.noConfusion hx,
      fun st2 hx => by injection hx with h1; rw [← h1]; exact hinv⟩
  · rw [if_neg hf]
    cases hg : LexerStateManager.get st.stack with
    | none =>
      obtain ⟨b, t, hbt⟩ : ∃ b t, st.stack = b :: t := by
        cases hs : st.stack with
        | nil => exact absurd hs hinv.1
        | cons b t => exact ⟨b, t, rfl⟩
      rw [LexerStateManager.get, hbt] at hg
      exact Option.noConfusion hg
    | some mode =>
      have hh : st.stack.head? = some mode := hg
      dsimp only
      cases hch : cleanBuffer st.buffer ++ st.source with
      | nil =>
        exact ⟨fun hx => LexOut.noConfusion hx,
          fun r st2 hx => LexOut.noConfusion hx,
          fun st2 hx => by injection hx with h1; rw [← h1]; exact hinv⟩
      | cons c cs =>
        have hcands : ∀ cand ∈ (LexerState.matchers mode).map
            (fun m => (⟨m, none⟩ : Candidate)), MatcherSafe mode cand.matcher := by
          intro cand hcand
          obtain ⟨m0, hm0, hm0e⟩ := List.mem_map.mp hcand
          rw [← hm0e]
          exact matchers_safe mode m0 hm0
        exact @runChars_safe st.stack mode hinv hh (c :: cs) []
          ((LexerState.matchers mode).map (fun m => (⟨m, none⟩ : Candidate))) false hcands

/-- An invariant stack always yields a top mode. -/
theorem get_of_stackInv {s : ModeStack} (h : StackInv s) :
    ∃ mode, LexerStateManager.get s = some mode := by
  cases hs : s with
  | nil => exact absurd hs h.1
  | cons b t => exact ⟨b, rfl⟩

/-- C9: the mode stack of every reachable lexer state satisfies the
invariant — never empty, with `Normal(false)` the bottom element pushed at
construction — so `get` always returns a top mode, and no call to `next`
can reach the `pop`-on-short-stack panic. -/
theorem c9_mode_stack_invariant (st : Lexer) (h : Reach st) :
    StackInv st.stack ∧ (∃ mode, LexerStateManager.get st.stack = some mode) ∧
    lexNext st ≠ .panic .popEmpty := by
  have hinv : StackInv st.stack := by
    induction h with
    | init s =>
      refine ⟨?_, rfl, ?_⟩
      · simp [lexerInit, LexerStateManager.new]
      · simp [lexerInit, LexerStateManager.new]
    | stepTok hre heq ih => exact (lexNext_safe ih).2.1 _ _ heq
    | stepEos hre heq ih => exact (lexNext_safe ih).2.2 _ heq
  exact ⟨hinv, get_of_stackInv hinv, (lexNext_safe hinv).1⟩

/-- Witness for C9 at the initial state over the input `a`. -/
theorem c9_mode_stack_invariant_witness :
    StackInv (lexerInit ['a']).stack ∧
    (∃ mode, LexerStateManager.get (lexerInit ['a']).stack = some mode) ∧
    lexNext (lexerInit ['a']) ≠ .panic .popEmpty :=
  c9_mode_stack_invariant (lexerInit ['a']) (Reach.init ['a'])

end Doot
